import Mathlib

/-!
Verification of the sports content pipeline (classify → extract → generate →
route).  The Python sources are shallowly embedded: strings are lists of
characters, `json.loads` is modelled by an executable recursive-descent JSON
parser, the file system touched by the router is an explicit state value, and
the collaborator (the external text-generation service) is modelled by the
reply text each stage receives.
-/

set_option maxHeartbeats 1000000

/-- Strings from the Python code are modelled as lists of characters. -/
abbrev Str := List Char

/-- Whitespace skipped by Python `json.loads` (the JSON grammar): space, tab,
newline, carriage return. -/
def isJsonWs (c : Char) : Bool :=
  c = ' ' || c = '\t' || c = '\n' || c = '\r'

/-- ASCII whitespace stripped by Python `str.strip` and matched by the regex
class `\s` (space, tab, newline, carriage return, form feed, vertical tab).
Non-ASCII whitespace is not modelled. -/
def isPySpace (c : Char) : Bool :=
  c = ' ' || c = '\t' || c = '\n' || c = '\r' || c = '\x0c' || c = '\x0b'

/-- Drop leading JSON whitespace. -/
def skipWs (l : Str) : Str := l.dropWhile isJsonWs

/-- The leading JSON-whitespace run of a list. -/
def wsOf (l : Str) : Str := l.takeWhile isJsonWs

/-- Drop trailing JSON whitespace. -/
def stripEndWs (l : Str) : Str := (l.reverse.dropWhile isJsonWs).reverse

/-- The trailing JSON-whitespace run of a list. -/
def endWsOf (l : Str) : Str := (l.reverse.takeWhile isJsonWs).reverse

/-- Strip JSON whitespace from both ends. -/
def stripJsonWs (l : Str) : Str := stripEndWs (skipWs l)

/-- Python `str.strip()`: remove `isPySpace` characters from both ends. -/
def pyStrip (l : Str) : Str :=
  ((l.dropWhile isPySpace).reverse.dropWhile isPySpace).reverse

/-- Parsed JSON values.  Number and string payloads keep their source lexeme
(the pipeline never computes with them, it only passes them along), and
objects keep their members in source order. -/
inductive Json where
  | null : Json
  | bool : Bool → Json
  | num : Str → Json
  | str : Str → Json
  | arr : List Json → Json
  | obj : List (Str × Json) → Json
  deriving Repr

/-- Hexadecimal digit test (for `\uXXXX` string escapes). -/
def isHex (c : Char) : Bool :=
  c.isDigit || ('a' ≤ c && c ≤ 'f') || ('A' ≤ c && c ≤ 'F')

/-- Parse the body of a JSON string literal (the opening quote has already
been consumed).  Returns the raw (still escaped) content and the remaining
input after the closing quote.  Control characters below `0x20` are rejected,
as by `json.loads` in strict mode. -/
def parseStringLit : Str → Option (Str × Str)
  | [] => none
  | '"' :: r => some ([], r)
  | '\\' :: c :: r =>
    if c = '"' || c = '\\' || c = '/' || c = 'b' || c = 'f' ||
       c = 'n' || c = 'r' || c = 't' then
      (parseStringLit r).map (fun p => ('\\' :: c :: p.1, p.2))
    else if c = 'u' then
      match r with
      | h1 :: h2 :: h3 :: h4 :: r2 =>
        if isHex h1 && isHex h2 && isHex h3 && isHex h4 then
          (parseStringLit r2).map (fun p => ('\\' :: 'u' :: h1 :: h2 :: h3 :: h4 :: p.1, p.2))
        else none
      | _ => none
    else none
  | c :: r =>
    if 0x20 ≤ c.toNat then (parseStringLit r).map (fun p => (c :: p.1, p.2))
    else none

/-- Split off a maximal run of decimal digits. -/
def takeDigits (l : Str) : Str × Str := (l.takeWhile Char.isDigit, l.dropWhile Char.isDigit)

/-- Integer part of a JSON number: `0` or a nonzero digit followed by digits. -/
def parseIntPart : Str → Option (Str × Str)
  | [] => none
  | c :: r =>
    if c = '0' then some (['0'], r)
    else if c.isDigit then
      let d := takeDigits r
      some (c :: d.1, d.2)
    else none

/-- Optional fraction part `.digits` of a JSON number. -/
def parseFracPart (l : Str) : Str × Str :=
  match l with
  | '.' :: r =>
    let d := takeDigits r
    if d.1 = [] then ([], l) else ('.' :: d.1, d.2)
  | _ => ([], l)

/-- Optional `+`/`-` sign of an exponent. -/
def expSign : Str → Str × Str
  | c2 :: r2 => if c2 = '+' || c2 = '-' then ([c2], r2) else ([], c2 :: r2)
  | [] => ([], [])

/-- Optional exponent part `[eE][+-]?digits` of a JSON number. -/
def parseExpPart (l : Str) : Str × Str :=
  match l with
  | c :: r =>
    if c = 'e' || c = 'E' then
      let sr := expSign r
      let d := takeDigits sr.2
      if d.1 = [] then ([], c :: r) else (c :: (sr.1 ++ d.1), d.2)
    else ([], c :: r)
  | [] => ([], [])

/-- Optional leading minus of a JSON number. -/
def pySign : Str → Str × Str
  | '-' :: r => (['-'], r)
  | l => ([], l)

/-- Maximal-munch JSON number, mirroring the `NUMBER_RE` regex used by the
Python `json` module.  Returns the lexeme and the rest. -/
def parseNumberLit (l : Str) : Option (Str × Str) :=
  let sr := pySign l
  match parseIntPart sr.2 with
  | none => none
  | some (ip, r1) =>
    let f := parseFracPart r1
    let e := parseExpPart f.2
    some (sr.1 ++ ip ++ f.1 ++ e.1, e.2)

/-- Expect the literal characters `lit` as a prefix of `r`. -/
def expectLit (lit : Str) (j : Json) (r : Str) : Option (Json × Str) :=
  if lit.isPrefixOf r then some (j, r.drop lit.length) else none

mutual

/-- Parse one JSON value (leading whitespace allowed), fuel-indexed. -/
def parseValue : Nat → Str → Option (Json × Str)
  | 0, _ => none
  | fuel + 1, cs =>
    match skipWs cs with
    | [] => none
    | c :: r =>
      if c = '{' then parseObjBody fuel r
      else if c = '[' then parseArrBody fuel r
      else if c = '"' then (parseStringLit r).map (fun p => (Json.str p.1, p.2))
      else if c = 't' then expectLit ['r', 'u', 'e'] (Json.bool true) r
      else if c = 'f' then expectLit ['a', 'l', 's', 'e'] (Json.bool false) r
      else if c = 'n' then expectLit ['u', 'l', 'l'] Json.null r
      else if c = '-' || c.isDigit then
        (parseNumberLit (c :: r)).map (fun p => (Json.num p.1, p.2))
      else none

/-- Parse the inside of an object (after the opening brace). -/
def parseObjBody : Nat → Str → Option (Json × Str)
  | 0, _ => none
  | fuel + 1, cs =>
    match skipWs cs with
    | [] => none
    | c :: r =>
      if c = '}' then some (Json.obj [], r)
      else parseMembers fuel cs []

/-- Parse one or more `"key": value` members followed by `}`. -/
def parseMembers : Nat → Str → List (Str × Json) → Option (Json × Str)
  | 0, _, _ => none
  | fuel + 1, cs, acc =>
    match skipWs cs with
    | [] => none
    | c :: r =>
      if c = '"' then
        match parseStringLit r with
        | none => none
        | some (k, r2) =>
          match skipWs r2 with
          | [] => none
          | c2 :: r3 =>
            if c2 = ':' then
              match parseValue fuel r3 with
              | none => none
              | some (v, r4) =>
                match skipWs r4 with
                | [] => none
                | c3 :: r5 =>
                  if c3 = ',' then parseMembers fuel r5 (acc ++ [(k, v)])
                  else if c3 = '}' then some (Json.obj (acc ++ [(k, v)]), r5)
                  else none
            else none
      else none

/-- Parse the inside of an array (after the opening bracket). -/
def parseArrBody : Nat → Str → Option (Json × Str)
  | 0, _ => none
  | fuel + 1, cs =>
    match skipWs cs with
    | [] => none
    | c :: r =>
      if c = ']' then some (Json.arr [], r)
      else parseItems fuel cs []

/-- Parse one or more array items followed by `]`. -/
def parseItems : Nat → Str → List Json → Option (Json × Str)
  | 0, _, _ => none
  | fuel + 1, cs, acc =>
    match parseValue fuel cs with
    | none => none
    | some (v, r1) =>
      match skipWs r1 with
      | [] => none
      | c :: r2 =>
        if c = ',' then parseItems fuel r2 (acc ++ [v])
        else if c = ']' then some (Json.arr (acc ++ [v]), r2)
        else none

end

/-- Model of Python `json.loads`: strip surrounding JSON whitespace, parse one
value, and require that the whole input was consumed.  The fuel `3·n + 3` is
enough for any input of length `n`. -/
def parseJson (l : Str) : Option Json :=
  let c := stripJsonWs l
  match parseValue (3 * c.length + 3) c with
  | some (v, rest) => if rest = [] then some v else none
  | none => none

example : parseJson "null".toList = some Json.null := rfl
example : parseJson "  42 ".toList = some (Json.num ['4', '2']) := rfl
example : parseJson " \x7b\"a\": 1\x7d ".toList =
    some (Json.obj [(['a'], Json.num ['1'])]) := rfl
example : parseJson "[1, \"x\"]".toList =
    some (Json.arr [Json.num ['1'], Json.str ['x']]) := rfl
example : parseJson "\x7b\"a\": 1".toList = none := rfl
example : parseJson "tru".toList = none := rfl
example : parseJson "01".toList = none := rfl
example : parseJson "".toList = none := rfl

/-- The spec's error taxonomy (section 7).  The Python code raises
`ValueError`/`Exception` carrying a message; each raise site corresponds to
one of these kinds, and the kind is preserved when a stage re-wraps an error
with a stage prefix (in Python the cause is identifiable from the message). -/
inductive ErrKind where
  | parse : ErrKind
  | validation : ErrKind
  | call : ErrKind
  | ioError : ErrKind
  deriving Repr, DecidableEq

/-- An error raised inside the pipeline: its taxonomy kind and its message. -/
structure PipeError where
  kind : ErrKind
  msg : Str
  deriving Repr

/-- The three-backtick fence marker. -/
def fence3 : Str := ['`', '`', '`']

/-- Does the text contain `\x60\x60\x60` (Python `"\x60\x60\x60" in text`)? -/
def hasFence : Str → Bool
  | [] => false
  | c :: r => fence3.isPrefixOf (c :: r) || hasFence r

/-- Find the earliest occurrence of `"\n\x60\x60\x60"`: returns the part
before the newline and the part after the three backticks.  This is the
non-greedy `(.*?)\n\x60\x60\x60` step of the fence regex. -/
def splitNlFence : Str → Option (Str × Str)
  | '\n' :: '`' :: '`' :: '`' :: rest => some ([], rest)
  | c :: r => (splitNlFence r).map (fun p => (c :: p.1, p.2))
  | [] => none

/-- The suffixes following each newline inside the leading `\s*` whitespace
run, in left-to-right order.  These are the candidate content starts for the
`\s*\n` part of the fence-regex header. -/
def headerCandidates : Str → List Str
  | c :: r =>
    if isPySpace c then (if c = '\n' then [r] else []) ++ headerCandidates r
    else []
  | [] => []

/-- Backtracking for the fence-regex header `\s*\n`: the greedy `\s*` prefers
the latest newline of the whitespace run, falling back to earlier ones until
the non-greedy content step finds a closing `"\n\x60\x60\x60"`. -/
def fenceAfterHeader (r2 : Str) : Option Str :=
  (headerCandidates r2).reverse.findSome? (fun s => (splitNlFence s).map (fun p => p.1))

/-- Try to match the regex `\x60\x60\x60(?:json)?\s*\n(.*?)\n\x60\x60\x60`
(DOTALL) at the start of the text, returning the captured group.  The
optional `json` tag commits when present: if the header fails after `json`,
the tagless alternative also fails, since it would have to match `j` as
whitespace. -/
def fenceMatchAt : Str → Option Str
  | '`' :: '`' :: '`' :: r =>
    let r2 := if ['j', 's', 'o', 'n'].isPrefixOf r then r.drop 4 else r
    fenceAfterHeader r2
  | _ => none

/-- Leftmost match of the fence regex (the `matches[0]` of `re.findall`). -/
def fenceFindFirst : Str → Option Str
  | [] => none
  | c :: r =>
    match fenceMatchAt (c :: r) with
    | some g => some g
    | none => fenceFindFirst r

/-- Python `sep.join(parts)`. -/
def joinSep (s : Str) : List Str → Str
  | [] => []
  | [x] => x
  | x :: y :: t => x ++ s ++ joinSep s (y :: t)

/-- Python `text.split('\n')`. -/
def splitLines : Str → List Str
  | [] => [[]]
  | c :: r =>
    if c = '\n' then [] :: splitLines r
    else
      match splitLines r with
      | h :: t => (c :: h) :: t
      | [] => [[c]]

/-- Drop every line whose stripped form starts with the fence marker, and
rejoin with newlines (the `cleaned_lines` fallback of strategy 2). -/
def removeFenceLines (l : Str) : Str :=
  joinSep ['\n'] ((splitLines l).filter (fun ln => !(fence3.isPrefixOf (pyStrip ln))))

/-- Python `text.find(c)`: index of the leftmost occurrence. -/
def pyFind (c : Char) (l : Str) : Option Nat := l.findIdx? (fun x => x = c)

/-- Python `text.rfind(c)`: index of the rightmost occurrence. -/
def pyRFind (c : Char) (l : Str) : Option Nat :=
  (l.reverse.findIdx? (fun x => x = c)).map (fun i => l.length - 1 - i)

/-- Strategy 3 step 2: given the chosen opening index and closing character,
slice `cleaned[start:end+1]` and parse it.  The underlying
`json.JSONDecodeError` text interpolated into the final message is not
modelled. -/
def bracketTail (cleaned orig ctx : Str) (start : Nat) (endch : Char) :
    Except PipeError Json :=
  match pyRFind endch cleaned with
  | none =>
    .error ⟨.parse, "Malformed JSON in ".toList ++ ctx ++ ". Response: ".toList ++
      orig.take 200 ++ "...".toList⟩
  | some e =>
    if e < start then
      .error ⟨.parse, "Malformed JSON in ".toList ++ ctx ++ ". Response: ".toList ++
        orig.take 200 ++ "...".toList⟩
    else
      let js := (cleaned.drop start).take (e + 1 - start)
      match parseJson js with
      | some v => .ok v
      | none =>
        .error ⟨.parse, "Failed to parse JSON from ".toList ++ ctx ++
          ". Extracted: ".toList ++ js.take 100 ++ "... Error: <json error>".toList⟩

/-- Strategy 3: find the first `\x7b` and first `[`; whichever comes first
fixes the opening delimiter and its closing character; fail if neither
exists. -/
def bracketScan (cleaned orig ctx : Str) : Except PipeError Json :=
  match pyFind '{' cleaned, pyFind '[' cleaned with
  | none, none =>
    .error ⟨.parse, "No JSON found in ".toList ++ ctx ++ ". Response: ".toList ++
      orig.take 200 ++ "...".toList⟩
  | some b, none => bracketTail cleaned orig ctx b '}'
  | none, some k => bracketTail cleaned orig ctx k ']'
  | some b, some k =>
    if b ≤ k then bracketTail cleaned orig ctx b '}'
    else bracketTail cleaned orig ctx k ']'

/-- `pipeline/utils.py`: robustly extract JSON from a collaborator reply.
Strategy 1: parse the stripped text directly; strategy 2: fenced code blocks
(first the regex capture, then dropping all fence lines); strategy 3: the
bracket scan. -/
def extract_json_from_response (response_text ctx : Str) : Except PipeError Json :=
  if pyStrip response_text = [] then
    .error ⟨.parse, "Empty response received for ".toList ++ ctx⟩
  else
    let cleaned := pyStrip response_text
    match parseJson cleaned with
    | some v => .ok v
    | none =>
      let step2 : Option Json :=
        if hasFence cleaned then
          match
            (match fenceFindFirst cleaned with
             | some g => parseJson g
             | none => none) with
          | some v => some v
          | none => parseJson (removeFenceLines cleaned)
        else none
      match step2 with
      | some v => .ok v
      | none => bracketScan cleaned response_text ctx

example :
    extract_json_from_response " \x7b\"a\": 1\x7d ".toList "t".toList =
      .ok (Json.obj [(['a'], Json.num ['1'])]) := rfl
example :
    extract_json_from_response "pre \x7b\"a\": 1\x7d post".toList "t".toList =
      .ok (Json.obj [(['a'], Json.num ['1'])]) := rfl
example :
    extract_json_from_response "\x60\x60\x60json\n\x7b\"a\": 1\x7d\n\x60\x60\x60".toList "t".toList =
      .ok (Json.obj [(['a'], Json.num ['1'])]) := rfl
example :
    extract_json_from_response "\x60\x60\x60\n\x7b\"a\": 1\x7d\n\x60\x60\x60".toList "t".toList =
      .ok (Json.obj [(['a'], Json.num ['1'])]) := rfl
example :
    extract_json_from_response "42".toList "t".toList = .ok (Json.num ['4', '2']) := rfl
example :
    (extract_json_from_response "no json here".toList "t".toList).isOk = false := rfl
example :
    (extract_json_from_response "   ".toList "t".toList).isOk = false := rfl

/-- Python `repr` of a string, as interpolated into list reprs. -/
def pyQuote (s : Str) : Str := '\'' :: s ++ ['\'']

/-- Python `repr` of a list of strings, e.g. `['a', 'b']`. -/
def pyReprStrList (xs : List Str) : Str :=
  '[' :: (joinSep ", ".toList (xs.map pyQuote) ++ [']'])

/-- Python `type(x)` rendering, `<class 'dict'>` style. -/
def pyTypeShort : Json → Str
  | .null => "NoneType".toList
  | .bool _ => "bool".toList
  | .num lex => if lex.any (fun c => c = '.' || c = 'e' || c = 'E') then
      "float".toList else "int".toList
  | .str _ => "str".toList
  | .arr _ => "list".toList
  | .obj _ => "dict".toList

/-- Python `f-string` rendering of `type(x)`. -/
def pyTypeName (j : Json) : Str :=
  "<class ".toList ++ pyQuote (pyTypeShort j) ++ ['>']

/-- `pipeline/utils.py`: `validate_dict_keys`.  Fails when the value is not a
dict, or when required keys are missing; the missing-keys message carries the
missing keys and the keys actually present. -/
def validate_dict_keys (data : Json) (required_keys : List Str) (ctx : Str) :
    Except PipeError Unit :=
  match data with
  | Json.obj kvs =>
    let missing := required_keys.filter (fun k => !decide (k ∈ kvs.map Prod.fst))
    if missing = [] then .ok ()
    else
      .error ⟨.validation, ctx ++ " missing required keys: ".toList ++
        pyReprStrList missing ++ ". Available keys: ".toList ++
        pyReprStrList (kvs.map Prod.fst)⟩
  | _ =>
    .error ⟨.validation, ctx ++ " must be a dictionary, got ".toList ++ pyTypeName data⟩

/-- Python dict indexing `j[k]` on a parsed object: with duplicate keys the
last binding wins, as in a Python dict literal. -/
def jsonGet (j : Json) (k : Str) : Option Json :=
  match j with
  | Json.obj kvs => (kvs.reverse.find? (fun p => p.1 = k)).map Prod.snd
  | _ => none

/-- Python `f-string` rendering of a JSON value (as far as messages need). -/
def pyStrOf : Json → Str
  | .str s => s
  | .num lex => lex
  | .bool b => if b then "True".toList else "False".toList
  | .null => "None".toList
  | .arr _ => "<list>".toList
  | .obj _ => "<dict>".toList

/-- The fixed classification enum of `pipeline/classifier.py`. -/
def validTypes : List Str :=
  ["match_report".toList, "transfer_news".toList, "injury_update".toList,
   "opinion_piece".toList, "other".toList]

/-- Is the parsed `content_type` value a member of `valid_types`?  (Python
`result["content_type"] not in valid_types`; only a string can compare equal
to the enum strings.) -/
def isValidContentType (tv : Json) : Bool :=
  match tv with
  | Json.str s => decide (s ∈ validTypes)
  | _ => false

/-- One structured log record (`pipeline/logger.py`); the `details` payload
and timestamp are not modelled. -/
structure LogEvent where
  stage : Str
  status : Str
  deriving Repr

/-- The body of `ContentClassifier.classify` after the API call: parse the
reply, validate the required keys, enforce the enum. -/
def classifyParse (response_text input_id : Str) : Except PipeError Json := do
  let result ← extract_json_from_response response_text
    ("classification for ".toList ++ input_id)
  let _ ← validate_dict_keys result
    ["content_type".toList, "confidence".toList, "reasoning".toList]
    "Classification result".toList
  match jsonGet result "content_type".toList with
  | some tv =>
    if isValidContentType tv then .ok result
    else .error ⟨.validation, "Invalid content_type: ".toList ++ pyStrOf tv⟩
  | none => .error ⟨.validation, "Invalid content_type: ".toList⟩

/-- `ContentClassifier.classify`: the API call is modelled by its outcome
(`apiReply`); every failure is logged and re-raised with the stage prefix,
keeping its taxonomy kind. -/
def ContentClassifier.classify (apiReply : Except Str Str) (input_id : Str) :
    Except PipeError Json × List LogEvent :=
  match apiReply with
  | .error m =>
    (.error ⟨.call, "Classification failed: ".toList ++ m⟩,
     [⟨"CLASSIFY".toList, "FAILURE".toList⟩])
  | .ok text =>
    match classifyParse text input_id with
    | .ok result => (.ok result, [⟨"CLASSIFY".toList, "SUCCESS".toList⟩])
    | .error e =>
      (.error ⟨e.kind, "Classification failed: ".toList ++ e.msg⟩,
       [⟨"CLASSIFY".toList, "FAILURE".toList⟩])

/-- The body of `MetadataExtractor.extract` after the API call: parse and
require a JSON object. -/
def extractorParse (response_text input_id : Str) : Except PipeError Json := do
  let metadata ← extract_json_from_response response_text
    ("metadata extraction for ".toList ++ input_id)
  match metadata with
  | Json.obj _ => .ok metadata
  | _ => .error ⟨.validation, "Expected a JSON object, got ".toList ++ pyTypeShort metadata⟩

/-- `MetadataExtractor.extract`.  The content and content type shape only the
instructions sent to the collaborator, which stand behind `apiReply`. -/
def MetadataExtractor.extract (apiReply : Except Str Str)
    (_content _content_type input_id : Str) : Except PipeError Json × List LogEvent :=
  match apiReply with
  | .error m =>
    (.error ⟨.call, "Metadata extraction failed: ".toList ++ m⟩,
     [⟨"EXTRACT".toList, "FAILURE".toList⟩])
  | .ok text =>
    match extractorParse text input_id with
    | .ok metadata => (.ok metadata, [⟨"EXTRACT".toList, "SUCCESS".toList⟩])
    | .error e =>
      (.error ⟨e.kind, "Metadata extraction failed: ".toList ++ e.msg⟩,
       [⟨"EXTRACT".toList, "FAILURE".toList⟩])

/-- The body of `HeadlineGenerator.generate` after the API call. -/
def generatorParse (response_text input_id : Str) : Except PipeError Json := do
  let headlines ← extract_json_from_response response_text
    ("headline generation for ".toList ++ input_id)
  let _ ← validate_dict_keys headlines
    ["neutral".toList, "fan_oriented".toList, "casual_viewer".toList]
    "Headline generation result".toList
  .ok headlines

/-- `HeadlineGenerator.generate`. -/
def HeadlineGenerator.generate (apiReply : Except Str Str) (input_id : Str) :
    Except PipeError Json × List LogEvent :=
  match apiReply with
  | .error m =>
    (.error ⟨.call, "Headline generation failed: ".toList ++ m⟩,
     [⟨"GENERATE".toList, "FAILURE".toList⟩])
  | .ok text =>
    match generatorParse text input_id with
    | .ok headlines => (.ok headlines, [⟨"GENERATE".toList, "SUCCESS".toList⟩])
    | .error e =>
      (.error ⟨e.kind, "Headline generation failed: ".toList ++ e.msg⟩,
       [⟨"GENERATE".toList, "FAILURE".toList⟩])

/-- `config.py`: `OUTPUT_DIR`. -/
def OUTPUT_DIR : Str := "outputs".toList

/-- `config.py`: `CONTENT_TYPE_DIRS`, the fixed content-type → bucket table
with `other` as fallback. -/
def CONTENT_TYPE_DIRS : List (Str × Str) :=
  [("match_report".toList, "match_reports".toList),
   ("transfer_news".toList, "transfer_news".toList),
   ("injury_update".toList, "injury_updates".toList),
   ("opinion_piece".toList, "opinion_pieces".toList),
   ("other".toList, "other".toList)]

/-- Python `dict.get(k, default)` over an association table with unique
keys. -/
def lookupTable (tbl : List (Str × Str)) (k dflt : Str) : Str :=
  match tbl.find? (fun p => p.1 = k) with
  | some p => p.2
  | none => dflt

/-- The JSON package written by the router for a routed record (section 6's
persisted-record shape).  `processed_at` and the filename timestamp are both
derived from the same clock reading; their formatting is not modelled. -/
structure RoutedRecord where
  input_id : Str
  processed_at : Str
  content_type : Str
  classification : Json
  metadata : Json
  headlines : Json
  original_content : Str
  pipeline_version : Str

/-- One file in the output tree: its bucket directory, its name, and its
contents. -/
structure FileEntry where
  dir : Str
  name : Str
  record : RoutedRecord

/-- The state of the `outputs` tree: which bucket directories exist and which
files they hold. -/
structure FS where
  dirs : List Str
  files : List FileEntry

/-- Python `open(path, 'w')` + `json.dump`: create the file, replacing any
existing file of the same path. -/
def writeFile (fs : FS) (dir name : Str) (record : RoutedRecord) : FS :=
  { fs with
    files := (fs.files.filter (fun e => !(decide (e.dir = dir) && decide (e.name = name)))) ++
      [⟨dir, name, record⟩] }

/-- `ContentRouter.__init__`: ensure every bucket directory exists
(`mkdir(parents=True, exist_ok=True)`); files are untouched. -/
def ContentRouter.init (fs : FS) : FS :=
  { fs with
    dirs := fs.dirs ++ (CONTENT_TYPE_DIRS.map Prod.snd).filter (fun d => !decide (d ∈ fs.dirs)) }

/-- `ContentRouter.route`: pick the bucket (falling back to `other`), write
the record package to `<input_id>_<timestamp>.json` in it, log, and return
the path.  File-system write failure (the `except` branch) is not modelled:
writes to the state value always succeed. -/
def ContentRouter.route (fs : FS) (input_id content_type original_content : Str)
    (classification metadata headlines : Json) (now : Str) :
    FS × Str × List LogEvent :=
  let dir_name := lookupTable CONTENT_TYPE_DIRS content_type "other".toList
  let filename := input_id ++ "_".toList ++ now ++ ".json".toList
  let record : RoutedRecord :=
    ⟨input_id, now, content_type, classification, metadata, headlines,
     original_content, "1.0".toList⟩
  let fs2 := writeFile fs dir_name filename record
  (fs2, OUTPUT_DIR ++ ['/'] ++ dir_name ++ ['/'] ++ filename,
   [⟨"ROUTE".toList, "SUCCESS".toList⟩])

/-- The number of files matching `*.json` in a bucket directory
(`dir_path.glob("*.json")`). -/
def countJsonFilesIn (fs : FS) (dir : Str) : Nat :=
  (fs.files.filter (fun e => decide (e.dir = dir) && ".json".toList.isSuffixOf e.name)).length

/-- `ContentRouter.get_routing_stats`: count the persisted `.json` files in
every bucket directory, one entry per known content type. -/
def ContentRouter.get_routing_stats (fs : FS) : List (Str × Nat) :=
  CONTENT_TYPE_DIRS.map (fun p => (p.1, countJsonFilesIn fs p.2))

/-- The per-item collaborator replies: one API-call outcome per stage (the
call itself may fail, or deliver reply text). -/
structure Replies where
  classifyReply : Except Str Str
  extractReply : Except Str Str
  generateReply : Except Str Str

/-- One submitted work item: the payload of the batch entry point plus the
run's clock readings (`autoId` is the timestamp-derived id used when no
`input_id` is given, `now` the routing timestamp) and the collaborator's
replies for this item. -/
structure WorkItem where
  content : Str
  input_id : Option Str
  source : Option Str
  autoId : Str
  now : Str
  replies : Replies

/-- The per-item result dict returned by `ContentPipeline.process`. -/
structure PipelineResult where
  input_id : Str
  status : Str
  classification : Option Json
  metadata : Option Json
  headlines : Option Json
  output_path : Option Str
  error : Option Str

/-- The failure result dict (`status: failed`). -/
def failedResult (id msg : Str) : PipelineResult :=
  ⟨id, "failed".toList, none, none, none, none, some msg⟩

/-- The success result dict (`status: success`). -/
def successResult (id : Str) (classification metadata headlines : Json)
    (path : Str) : PipelineResult :=
  ⟨id, "success".toList, some classification, some metadata, some headlines,
   some path, none⟩

/-- `if not input_id:` — both `None` and the empty string trigger the
auto-generated id. -/
def effectiveId (item : WorkItem) : Str :=
  match item.input_id with
  | some s => if s = [] then item.autoId else s
  | none => item.autoId

/-- `classification["content_type"]` as a string; the orchestrator only
reaches this after the classifier enforced the enum, so the default branch is
unreachable in pipeline runs. -/
def contentTypeOf (classification : Json) : Str :=
  match jsonGet classification "content_type".toList with
  | some (Json.str s) => s
  | _ => []

/-- What one `ContentPipeline.process` call produces: the updated output
tree, the result dict, and the log records emitted along the way. -/
structure ProcessOut where
  fs : FS
  result : PipelineResult
  events : List LogEvent

/-- `ContentPipeline.process`: classify → extract → generate → route in
order; the first stage error aborts the remaining stages and yields a
`failed` result with the error message. -/
def ContentPipeline.process (fs : FS) (item : WorkItem) : ProcessOut :=
  let input_id := effectiveId item
  let ev0 : List LogEvent := [⟨"PROCESS_START".toList, "SUCCESS".toList⟩]
  match ContentClassifier.classify item.replies.classifyReply input_id with
  | (.error e, ev1) => ⟨fs, failedResult input_id e.msg, ev0 ++ ev1⟩
  | (.ok classification, ev1) =>
    let content_type := contentTypeOf classification
    match MetadataExtractor.extract item.replies.extractReply item.content
        content_type input_id with
    | (.error e, ev2) => ⟨fs, failedResult input_id e.msg, ev0 ++ ev1 ++ ev2⟩
    | (.ok metadata, ev2) =>
      match HeadlineGenerator.generate item.replies.generateReply input_id with
      | (.error e, ev3) => ⟨fs, failedResult input_id e.msg, ev0 ++ ev1 ++ ev2 ++ ev3⟩
      | (.ok headlines, ev3) =>
        let r := ContentRouter.route fs input_id content_type item.content
          classification metadata headlines item.now
        ⟨r.1, successResult input_id classification metadata headlines r.2.1,
         ev0 ++ ev1 ++ ev2 ++ ev3 ++ r.2.2 ++
           [⟨"PROCESS_COMPLETE".toList, "SUCCESS".toList⟩]⟩

/-- The batch summary assembled at the end of `process_batch` (reported to
the caller on the console; modelled as a value). -/
structure BatchSummary where
  total : Nat
  successful : Nat
  failed : Nat
  stats : List (Str × Nat)

/-- What one `ContentPipeline.process_batch` call produces. -/
structure BatchOut where
  fs : FS
  results : List PipelineResult
  summary : BatchSummary

/-- The sequential fold of `process` over the submitted items. -/
def processItems (fs : FS) : List WorkItem → FS × List PipelineResult
  | [] => (fs, [])
  | it :: rest =>
    let o := ContentPipeline.process fs it
    let r := processItems o.fs rest
    (r.1, o.result :: r.2)

/-- `ContentPipeline.process_batch`: process every item in submission order,
then count successes and failures and snapshot the routing stats. -/
def ContentPipeline.process_batch (fs : FS) (contents : List WorkItem) : BatchOut :=
  let p := processItems fs contents
  let successful := (p.2.filter (fun r => decide (r.status = "success".toList))).length
  ⟨p.1, p.2,
   ⟨p.2.length, successful, p.2.length - successful,
    ContentRouter.get_routing_stats p.1⟩⟩

/-- A JSON payload wrapped in a markdown fenced code block, with or without
the `json` language tag on the opening fence. -/
def wrapFenced (tagged : Bool) (payload : Str) : Str :=
  fence3 ++ (if tagged then ['j', 's', 'o', 'n'] else []) ++
    '\n' :: payload ++ '\n' :: fence3

/-- No newline is immediately followed by a backtick.  Text parsed as JSON
satisfies this (backticks only occur inside string literals, which cannot
contain raw newlines), which pins down where the closing fence of a wrapped
payload is found. -/
def noNlTick : Str → Bool
  | [] => true
  | [_] => true
  | a :: b :: r => !(a = '\n' && b = '`') && noNlTick (b :: r)

/-- Look up one content type's counter in a stats snapshot. -/
def lookupStat (stats : List (Str × Nat)) (ct : Str) : Option Nat :=
  (stats.find? (fun p => p.1 = ct)).map Prod.snd

/-- Invariant of a stretch of text consumed by the JSON parser: no newline
immediately followed by a backtick, it does not start with a backtick, and
it does not end in whitespace.  Closed under concatenation. -/
def GoodPiece (q : Str) : Prop :=
  noNlTick q = true ∧ q.head? ≠ some '`' ∧
    (∀ z, q.getLast? = some z → isPySpace z = false)

theorem mem_of_mem_dropWhile {α} (p : α → Bool) (l : List α) (c : α)
    (h : c ∈ l.dropWhile p) : c ∈ l := by
  induction l with
  | nil => simp at h
  | cons a t ih =>
    by_cases hp : p a = true
    · rw [List.dropWhile_cons, if_pos hp] at h
      exact List.mem_cons_of_mem a (ih h)
    · rw [List.dropWhile_cons, if_neg hp] at h
      exact h

theorem mem_of_mem_pyStrip {c : Char} {t : Str} (h : c ∈ pyStrip t) : c ∈ t := by
  unfold pyStrip at h
  rw [List.mem_reverse] at h
  have h2 := mem_of_mem_dropWhile _ _ _ h
  rw [List.mem_reverse] at h2
  exact mem_of_mem_dropWhile _ _ _ h2

theorem hasFence_eq_false {l : Str} (h : '`' ∉ l) : hasFence l = false := by
  induction l with
  | nil => rfl
  | cons a t ih =>
    have ha : a ≠ '`' := fun he => h (he ▸ List.mem_cons_self a t)
    have ht : '`' ∉ t := fun hm => h (List.mem_cons_of_mem a hm)
    have h1 : fence3.isPrefixOf (a :: t) = false := by
      simp only [fence3, List.isPrefixOf, Bool.and_eq_false_iff]
      left
      simp only [beq_eq_false_iff_ne, ne_eq]
      exact fun he => ha he.symm
    rw [show hasFence (a :: t) = (fence3.isPrefixOf (a :: t) || hasFence t) from rfl,
      h1, Bool.false_or]
    exact ih ht

theorem findIdx?_eq_none {α} (p : α → Bool) (l : List α)
    (h : ∀ x ∈ l, p x = false) : l.findIdx? p = none := by
  induction l with
  | nil => rfl
  | cons a t ih =>
    have ha := h a (List.mem_cons_self a t)
    have hts := ih (fun x hx => h x (List.mem_cons_of_mem a hx))
    simp [List.findIdx?_cons, ha, hts]

theorem pyFind_eq_none {c : Char} {l : Str} (h : c ∉ l) : pyFind c l = none := by
  unfold pyFind
  exact findIdx?_eq_none _ _ (fun x hx => by
    by_cases hxc : x = c
    · exact absurd (hxc ▸ hx) h
    · simp [hxc])

/-- C3: for every input text whose trimmed form is valid JSON, extraction
succeeds via the direct-parse strategy and returns exactly the value of
parsing the trimmed text. -/
theorem extract_direct_parse (t ctx : Str) (v : Json)
    (h : parseJson (pyStrip t) = some v) :
    extract_json_from_response t ctx = .ok v := by
  have hne : ¬ pyStrip t = [] := by
    intro he
    rw [he, show parseJson ([] : Str) = none from rfl] at h
    exact Option.noConfusion h
  unfold extract_json_from_response
  rw [if_neg hne]
  simp only [h]

/-- Witness for C3 at a concrete already-valid JSON input. -/
theorem extract_direct_parse_witness :
    parseJson (pyStrip " \x7b\"k\": true\x7d ".toList) =
      some (Json.obj [(['k'], Json.bool true)]) ∧
    extract_json_from_response " \x7b\"k\": true\x7d ".toList "ctx".toList =
      .ok (Json.obj [(['k'], Json.bool true)]) :=
  ⟨rfl, extract_direct_parse _ _ _ rfl⟩

/-- C5 counterexample: the bare scalar `42` contains neither opening
delimiter, yet extraction succeeds via the direct-parse strategy instead of
failing with `ParseError`. -/
theorem extract_no_brackets_counterexample :
    ('{' ∉ "42".toList ∧ '[' ∉ "42".toList) ∧
    extract_json_from_response "42".toList "API response".toList =
      .ok (Json.num ['4', '2']) :=
  ⟨by decide, rfl⟩

/-- C5 (amended): for input containing no `\x7b`, no `[` and no backtick,
and whose trimmed form is not itself valid JSON, extraction always fails
with `ParseError`. -/
theorem extract_no_brackets_amended (t ctx : Str)
    (hb : '{' ∉ t) (hk : '[' ∉ t) (hbt : '`' ∉ t)
    (hp : parseJson (pyStrip t) = none) :
    ∃ e, extract_json_from_response t ctx = .error e ∧ e.kind = .parse := by
  by_cases hne : pyStrip t = []
  · refine ⟨⟨.parse, "Empty response received for ".toList ++ ctx⟩, ?_, rfl⟩
    unfold extract_json_from_response
    rw [if_pos hne]
  · have hfence : hasFence (pyStrip t) = false :=
      hasFence_eq_false (fun hm => hbt (mem_of_mem_pyStrip hm))
    have hfb : pyFind '{' (pyStrip t) = none :=
      pyFind_eq_none (fun hm => hb (mem_of_mem_pyStrip hm))
    have hfk : pyFind '[' (pyStrip t) = none :=
      pyFind_eq_none (fun hm => hk (mem_of_mem_pyStrip hm))
    refine ⟨⟨.parse, "No JSON found in ".toList ++ ctx ++ ". Response: ".toList ++
      t.take 200 ++ "...".toList⟩, ?_, rfl⟩
    unfold extract_json_from_response
    rw [if_neg hne]
    simp only [hp, hfence, Bool.false_eq_true, if_false]
    unfold bracketScan
    rw [hfb, hfk]

/-- Witness for the amended C5 at a concrete bracket-free input. -/
theorem extract_no_brackets_amended_witness :
    ∃ e, extract_json_from_response "hello".toList "API response".toList =
      .error e ∧ e.kind = .parse :=
  extract_no_brackets_amended "hello".toList "API response".toList
    (by decide) (by decide) (by decide) rfl

theorem infix_app_left {l m r : Str} (h : l <:+: m) : l <:+: m ++ r :=
  h.trans (List.prefix_append m r).isInfix

theorem infix_app_right {l m : Str} (a : Str) (h : l <:+: m) : l <:+: a ++ m :=
  h.trans (List.suffix_append a m).isInfix

theorem infix_joinSep (s : Str) (ys : List Str) (y : Str) (h : y ∈ ys) :
    y <:+: joinSep s ys := by
  induction ys with
  | nil => cases h
  | cons x t ih =>
    cases t with
    | nil =>
      have hx : y = x := by simpa using h
      subst hx
      exact List.infix_refl y
    | cons x2 t2 =>
      rw [show joinSep s (x :: x2 :: t2) = (x ++ s) ++ joinSep s (x2 :: t2) from rfl]
      rcases List.mem_cons.mp h with rfl | hy
      · exact infix_app_left (infix_app_left (List.infix_refl y))
      · exact infix_app_right _ (ih hy)

theorem infix_pyRepr {k : Str} {xs : List Str} (h : k ∈ xs) :
    pyQuote k <:+: pyReprStrList xs := by
  have h1 : pyQuote k ∈ xs.map pyQuote := List.mem_map_of_mem pyQuote h
  have h2 := infix_joinSep ", ".toList (xs.map pyQuote) (pyQuote k) h1
  rw [show pyReprStrList xs =
      ['['] ++ (joinSep ", ".toList (xs.map pyQuote) ++ [']']) from rfl]
  exact infix_app_right _ (infix_app_left h2)

/-- The reduced form of `validate_dict_keys` on a dict. -/
theorem validate_dict_keys_obj (kvs : List (Str × Json)) (req : List Str) (ctx : Str) :
    validate_dict_keys (Json.obj kvs) req ctx =
      (if req.filter (fun k => !decide (k ∈ kvs.map Prod.fst)) = [] then .ok ()
       else .error ⟨.validation, ctx ++ " missing required keys: ".toList ++
         pyReprStrList (req.filter (fun k => !decide (k ∈ kvs.map Prod.fst))) ++
         ". Available keys: ".toList ++ pyReprStrList (kvs.map Prod.fst)⟩) := rfl

/-- C9: `validate_keys` fails with `ValidationError` exactly when the value
is not a keyed mapping or a required key is absent; on any failure over a
mapping the message carries every missing key and every present key; and the
outcome (message included) depends only on the keys of the mapping, never on
its values. -/
theorem validate_dict_keys_spec (data : Json) (req : List Str) (ctx : Str) :
    ((∃ e, validate_dict_keys data req ctx = .error e ∧ e.kind = .validation) ↔
      ((∀ kvs, data ≠ Json.obj kvs) ∨
        ∃ kvs, data = Json.obj kvs ∧ ∃ k, k ∈ req ∧ k ∉ kvs.map Prod.fst)) ∧
    (∀ kvs kvs', data = Json.obj kvs →
      kvs.map Prod.fst = kvs'.map Prod.fst →
      validate_dict_keys data req ctx = validate_dict_keys (Json.obj kvs') req ctx) ∧
    (∀ kvs e, data = Json.obj kvs → validate_dict_keys data req ctx = .error e →
      e.kind = .validation ∧
      (∀ k, k ∈ req → k ∉ kvs.map Prod.fst → pyQuote k <:+: e.msg) ∧
      (∀ k, k ∈ kvs.map Prod.fst → pyQuote k <:+: e.msg)) := by
  refine ⟨?_, ?_, ?_⟩
  · cases data with
    | obj kvs =>
      rw [validate_dict_keys_obj]
      by_cases hm : req.filter (fun k => !decide (k ∈ kvs.map Prod.fst)) = []
      · rw [if_pos hm]
        constructor
        · rintro ⟨e, he, -⟩
          exact Except.noConfusion he
        · rintro (h1 | ⟨kvs', heq, k, hk1, hk2⟩)
          · exact absurd rfl (h1 kvs)
          · cases heq
            have hmem : k ∈ req.filter (fun k => !decide (k ∈ kvs.map Prod.fst)) :=
              List.mem_filter.mpr ⟨hk1, by
                show (!decide (k ∈ kvs.map Prod.fst)) = true
                rw [decide_eq_false hk2]
                rfl⟩
            rw [hm] at hmem
            cases hmem
      · rw [if_neg hm]
        constructor
        · intro _
          rcases List.exists_mem_of_ne_nil _ hm with ⟨k, hk⟩
          rcases List.mem_filter.mp hk with ⟨hk1, hk2⟩
          have hk2b : (!decide (k ∈ kvs.map Prod.fst)) = true := hk2
          refine Or.inr ⟨kvs, rfl, k, hk1, fun hmem => ?_⟩
          rw [decide_eq_true hmem] at hk2b
          exact Bool.noConfusion hk2b
        · intro _
          exact ⟨_, rfl, rfl⟩
    | null => exact ⟨fun _ => Or.inl (fun kvs h => Json.noConfusion h),
        fun _ => ⟨_, rfl, rfl⟩⟩
    | bool b => exact ⟨fun _ => Or.inl (fun kvs h => Json.noConfusion h),
        fun _ => ⟨_, rfl, rfl⟩⟩
    | num lex => exact ⟨fun _ => Or.inl (fun kvs h => Json.noConfusion h),
        fun _ => ⟨_, rfl, rfl⟩⟩
    | str s => exact ⟨fun _ => Or.inl (fun kvs h => Json.noConfusion h),
        fun _ => ⟨_, rfl, rfl⟩⟩
    | arr xs => exact ⟨fun _ => Or.inl (fun kvs h => Json.noConfusion h),
        fun _ => ⟨_, rfl, rfl⟩⟩
  · intro kvs kvs' heq hkeys
    subst heq
    rw [validate_dict_keys_obj, validate_dict_keys_obj, hkeys]
  · intro kvs e heq herr
    subst heq
    rw [validate_dict_keys_obj] at herr
    by_cases hm : req.filter (fun k => !decide (k ∈ kvs.map Prod.fst)) = []
    · rw [if_pos hm] at herr
      exact Except.noConfusion herr
    · rw [if_neg hm] at herr
      have he : e = ⟨.validation, ctx ++ " missing required keys: ".toList ++
          pyReprStrList (req.filter (fun k => !decide (k ∈ kvs.map Prod.fst))) ++
          ". Available keys: ".toList ++ pyReprStrList (kvs.map Prod.fst)⟩ := by
        cases herr
        rfl
      subst he
      refine ⟨rfl, ?_, ?_⟩
      · intro k hk1 hk2
        have hkm : k ∈ req.filter (fun k => !decide (k ∈ kvs.map Prod.fst)) :=
          List.mem_filter.mpr ⟨hk1, by
            show (!decide (k ∈ kvs.map Prod.fst)) = true
            rw [decide_eq_false hk2]
            rfl⟩
        exact infix_app_left (infix_app_left (infix_app_right _ (infix_pyRepr hkm)))
      · intro k hk
        exact infix_app_right _ (infix_pyRepr hk)

/-- Witness for C9: a concrete mapping missing one required key fails with
`ValidationError`. -/
theorem validate_dict_keys_spec_witness :
    ∃ e, validate_dict_keys (Json.obj [(['a'], Json.num ['1'])])
      [['a'], ['b']] "ctx".toList = .error e ∧ e.kind = .validation :=
  (validate_dict_keys_spec (Json.obj [(['a'], Json.num ['1'])])
    [['a'], ['b']] "ctx".toList).1.mpr
    (Or.inr ⟨[(['a'], Json.num ['1'])], rfl, ['b'], by decide, by decide⟩)

theorem lookupStat_known (fs : FS) (ct : Str)
    (hct : ct ∈ CONTENT_TYPE_DIRS.map Prod.fst) :
    lookupStat (ContentRouter.get_routing_stats fs) ct =
      some (countJsonFilesIn fs (lookupTable CONTENT_TYPE_DIRS ct "other".toList)) := by
  simp only [CONTENT_TYPE_DIRS, List.map_cons, List.map_nil, List.mem_cons,
    List.not_mem_nil, or_false] at hct
  rcases hct with rfl | rfl | rfl | rfl | rfl <;> rfl

theorem countJson_write_same (fs : FS) (dir name : Str) (record : RoutedRecord)
    (hsuf : ".json".toList.isSuffixOf name = true)
    (hfresh : ∀ e ∈ fs.files, ¬(e.dir = dir ∧ e.name = name)) :
    countJsonFilesIn (writeFile fs dir name record) dir =
      countJsonFilesIn fs dir + 1 := by
  unfold countJsonFilesIn writeFile
  have hq : fs.files.filter
      (fun e => !(decide (e.dir = dir) && decide (e.name = name))) = fs.files := by
    rw [List.filter_eq_self]
    intro e he
    have h := hfresh e he
    by_cases h1 : e.dir = dir
    · have h2 : ¬ e.name = name := fun h2 => h ⟨h1, h2⟩
      simp [h1, h2]
    · simp [h1]
  simp only [hq, List.filter_append, List.length_append]
  have hone : List.filter
      (fun e => decide (e.dir = dir) && ".json".toList.isSuffixOf e.name)
      [(⟨dir, name, record⟩ : FileEntry)] = [⟨dir, name, record⟩] := by
    rw [List.filter_cons_of_pos]
    · rfl
    · show (decide (dir = dir) && List.isSuffixOf ['.', 'j', 's', 'o', 'n'] name) = true
      rw [show List.isSuffixOf ['.', 'j', 's', 'o', 'n'] name = true from hsuf]
      simp
  rw [hone]
  rfl

theorem countJson_write_ne (fs : FS) (dir name : Str) (record : RoutedRecord)
    (dir' : Str) (hne : dir' ≠ dir) :
    countJsonFilesIn (writeFile fs dir name record) dir' = countJsonFilesIn fs dir' := by
  unfold countJsonFilesIn writeFile
  simp only [List.filter_append]
  have hnone : List.filter
      (fun e => decide (e.dir = dir') && ".json".toList.isSuffixOf e.name)
      [(⟨dir, name, record⟩ : FileEntry)] = [] := by
    rw [List.filter_cons_of_neg]
    · rfl
    · show ¬ (decide (dir = dir') && List.isSuffixOf ['.', 'j', 's', 'o', 'n'] name) = true
      rw [decide_eq_false (fun h => hne h.symm)]
      simp
  rw [hnone]
  have hcomm : ∀ (l : List FileEntry),
      (l.filter (fun e => !(decide (e.dir = dir) && decide (e.name = name)))).filter
        (fun e => decide (e.dir = dir') && ".json".toList.isSuffixOf e.name) =
      l.filter (fun e => decide (e.dir = dir') && ".json".toList.isSuffixOf e.name) := by
    intro l
    induction l with
    | nil => rfl
    | cons a t ih =>
      by_cases hqa : (fun e : FileEntry =>
          !(decide (e.dir = dir) && decide (e.name = name))) a = true
      · rw [@List.filter_cons_of_pos FileEntry
            (fun e => !(decide (e.dir = dir) && decide (e.name = name))) a t hqa,
          List.filter_cons, List.filter_cons, ih]
      · have hpa : ¬ (fun e : FileEntry =>
            decide (e.dir = dir') && ".json".toList.isSuffixOf e.name) a = true := by
          intro hp
          have hp2 : (decide (a.dir = dir') && ".json".toList.isSuffixOf a.name) = true := hp
          rw [Bool.and_eq_true] at hp2
          have hd : a.dir = dir' := of_decide_eq_true hp2.1
          have hq2 : (decide (a.dir = dir) && decide (a.name = name)) = true := by
            cases hb : (decide (a.dir = dir) && decide (a.name = name)) with
            | true => rfl
            | false => exact absurd (by show (!(decide (a.dir = dir) && decide (a.name = name))) = true; rw [hb]; rfl) hqa
          rw [Bool.and_eq_true] at hq2
          have hdd : a.dir = dir := of_decide_eq_true hq2.1
          exact hne (by rw [← hd, hdd])
        rw [@List.filter_cons_of_neg FileEntry
            (fun e => !(decide (e.dir = dir) && decide (e.name = name))) a t hqa,
          @List.filter_cons_of_neg FileEntry
            (fun e => decide (e.dir = dir') && ".json".toList.isSuffixOf e.name) a t hpa,
          ih]
  rw [hcomm, List.append_nil]

/-- C6: a successful route of a record with a known content type increases
exactly that type's counter by one; every other known type's counter is
unchanged.  (Freshness of the target filename models that each write creates
a new file; `open(…, 'w')` would otherwise silently overwrite.) -/
theorem route_increments_exactly_one (fs : FS)
    (input_id ct orig now : Str) (cls md hd : Json)
    (hct : ct ∈ CONTENT_TYPE_DIRS.map Prod.fst)
    (hfresh : ∀ e ∈ fs.files,
      ¬(e.dir = lookupTable CONTENT_TYPE_DIRS ct "other".toList ∧
        e.name = input_id ++ "_".toList ++ now ++ ".json".toList)) :
    lookupStat (ContentRouter.get_routing_stats
        (ContentRouter.route fs input_id ct orig cls md hd now).1) ct =
      some (countJsonFilesIn fs (lookupTable CONTENT_TYPE_DIRS ct "other".toList) + 1) ∧
    lookupStat (ContentRouter.get_routing_stats fs) ct =
      some (countJsonFilesIn fs (lookupTable CONTENT_TYPE_DIRS ct "other".toList)) ∧
    (∀ ct', ct' ∈ CONTENT_TYPE_DIRS.map Prod.fst → ct' ≠ ct →
      lookupStat (ContentRouter.get_routing_stats
        (ContentRouter.route fs input_id ct orig cls md hd now).1) ct' =
      lookupStat (ContentRouter.get_routing_stats fs) ct') := by
  have hsuf : ".json".toList.isSuffixOf
      (input_id ++ "_".toList ++ now ++ ".json".toList) = true := by
    apply List.isSuffixOf_iff_suffix.mpr
    exact List.suffix_append _ _
  refine ⟨?_, lookupStat_known fs ct hct, ?_⟩
  · rw [show (ContentRouter.route fs input_id ct orig cls md hd now).1 =
        writeFile fs (lookupTable CONTENT_TYPE_DIRS ct "other".toList)
          (input_id ++ "_".toList ++ now ++ ".json".toList)
          ⟨input_id, now, ct, cls, md, hd, orig, "1.0".toList⟩ from rfl]
    rw [lookupStat_known _ ct hct]
    rw [countJson_write_same fs _ _ _ hsuf hfresh]
  · intro ct' hct' hne
    rw [show (ContentRouter.route fs input_id ct orig cls md hd now).1 =
        writeFile fs (lookupTable CONTENT_TYPE_DIRS ct "other".toList)
          (input_id ++ "_".toList ++ now ++ ".json".toList)
          ⟨input_id, now, ct, cls, md, hd, orig, "1.0".toList⟩ from rfl]
    rw [lookupStat_known _ ct' hct', lookupStat_known fs ct' hct']
    rw [countJson_write_ne]
    simp only [CONTENT_TYPE_DIRS, List.map_cons, List.map_nil, List.mem_cons,
      List.not_mem_nil, or_false] at hct hct'
    rcases hct with rfl | rfl | rfl | rfl | rfl <;>
      rcases hct' with rfl | rfl | rfl | rfl | rfl <;>
      first
        | exact absurd rfl hne
        | decide

/-- Witness for C6: routing one match report into an empty tree bumps the
`match_report` counter from 0 to 1 and leaves the other four counters at 0. -/
theorem route_increments_exactly_one_witness :
    lookupStat (ContentRouter.get_routing_stats
      (ContentRouter.route ⟨[], []⟩ "a".toList "match_report".toList "c".toList
        Json.null Json.null Json.null "t".toList).1) "match_report".toList =
      some 1 ∧
    lookupStat (ContentRouter.get_routing_stats
      (ContentRouter.route ⟨[], []⟩ "a".toList "match_report".toList "c".toList
        Json.null Json.null Json.null "t".toList).1) "other".toList =
      lookupStat (ContentRouter.get_routing_stats (⟨[], []⟩ : FS)) "other".toList := by
  have h := route_increments_exactly_one ⟨[], []⟩ "a".toList "match_report".toList
    "c".toList "t".toList Json.null Json.null Json.null (by decide)
    (fun e he => absurd he (List.not_mem_nil e))
  exact ⟨h.1, h.2.2 "other".toList (by decide) (by decide)⟩

/-- C7: a record whose content type is not in the routing table is written
to the `other` fallback bucket (not dropped), and the stats increment shows
up under the fallback key. -/
theorem route_unknown_type_fallback (fs : FS)
    (input_id ct orig now : Str) (cls md hd : Json)
    (hct : ct ∉ CONTENT_TYPE_DIRS.map Prod.fst)
    (hfresh : ∀ e ∈ fs.files,
      ¬(e.dir = "other".toList ∧
        e.name = input_id ++ "_".toList ++ now ++ ".json".toList)) :
    (⟨"other".toList, input_id ++ "_".toList ++ now ++ ".json".toList,
      ⟨input_id, now, ct, cls, md, hd, orig, "1.0".toList⟩⟩ : FileEntry) ∈
      (ContentRouter.route fs input_id ct orig cls md hd now).1.files ∧
    lookupStat (ContentRouter.get_routing_stats
        (ContentRouter.route fs input_id ct orig cls md hd now).1) "other".toList =
      some (countJsonFilesIn fs "other".toList + 1) ∧
    lookupStat (ContentRouter.get_routing_stats fs) "other".toList =
      some (countJsonFilesIn fs "other".toList) := by
  have hdir : lookupTable CONTENT_TYPE_DIRS ct "other".toList = "other".toList := by
    unfold lookupTable
    rw [List.find?_eq_none.mpr]
    intro p hp
    simp only [decide_eq_true_eq]
    intro he
    exact hct (he ▸ List.mem_map_of_mem Prod.fst hp)
  have hsuf : ".json".toList.isSuffixOf
      (input_id ++ "_".toList ++ now ++ ".json".toList) = true := by
    apply List.isSuffixOf_iff_suffix.mpr
    exact List.suffix_append _ _
  have hroute : (ContentRouter.route fs input_id ct orig cls md hd now).1 =
      writeFile fs "other".toList (input_id ++ "_".toList ++ now ++ ".json".toList)
        ⟨input_id, now, ct, cls, md, hd, orig, "1.0".toList⟩ := by
    unfold ContentRouter.route
    rw [hdir]
  refine ⟨?_, ?_, ?_⟩
  · rw [hroute]
    unfold writeFile
    exact List.mem_append_right _ (List.mem_singleton.mpr rfl)
  · rw [hroute]
    have hk : lookupStat (ContentRouter.get_routing_stats
        (writeFile fs "other".toList (input_id ++ "_".toList ++ now ++ ".json".toList)
          ⟨input_id, now, ct, cls, md, hd, orig, "1.0".toList⟩)) "other".toList =
        some (countJsonFilesIn
          (writeFile fs "other".toList (input_id ++ "_".toList ++ now ++ ".json".toList)
            ⟨input_id, now, ct, cls, md, hd, orig, "1.0".toList⟩) "other".toList) := by
      exact lookupStat_known _ "other".toList (by decide)
    rw [hk, countJson_write_same fs _ _ _ hsuf hfresh]
  · exact lookupStat_known fs "other".toList (by decide)

/-- Witness for C7 at a concrete unknown content type. -/
theorem route_unknown_type_fallback_witness :
    lookupStat (ContentRouter.get_routing_stats
      (ContentRouter.route ⟨[], []⟩ "a".toList "weird_type".toList "c".toList
        Json.null Json.null Json.null "t".toList).1) "other".toList = some 1 := by
  have h := route_unknown_type_fallback ⟨[], []⟩ "a".toList "weird_type".toList
    "c".toList "t".toList Json.null Json.null Json.null (by decide)
    (fun e he => absurd he (List.not_mem_nil e))
  exact h.2.1

/-- C10: `get_stats` is a pure function of the persisted files: it maps every
known content type to the number of `.json` files in that type's bucket, and
constructing a fresh Router (which only ensures the directories exist) leaves
the counts — including records written by earlier runs — untouched. -/
theorem get_routing_stats_counts_files (fs : FS) :
    ContentRouter.get_routing_stats (ContentRouter.init fs) =
      ContentRouter.get_routing_stats fs ∧
    (∀ ct, ct ∈ CONTENT_TYPE_DIRS.map Prod.fst →
      lookupStat (ContentRouter.get_routing_stats fs) ct =
        some (countJsonFilesIn fs (lookupTable CONTENT_TYPE_DIRS ct "other".toList))) :=
  ⟨rfl, fun ct hct => lookupStat_known fs ct hct⟩

theorem validate_dict_keys_err_kind (d : Json) (r : List Str) (c : Str)
    (e : PipeError) (h : validate_dict_keys d r c = .error e) :
    e.kind = .validation := by
  cases d with
  | obj kvs =>
    rw [validate_dict_keys_obj] at h
    by_cases hm : r.filter (fun k => !decide (k ∈ kvs.map Prod.fst)) = []
    · rw [if_pos hm] at h
      exact Except.noConfusion h
    · rw [if_neg hm] at h
      cases h
      rfl
  | null => cases h; rfl
  | bool b => cases h; rfl
  | num lex => cases h; rfl
  | str s => cases h; rfl
  | arr xs => cases h; rfl

theorem classifyParse_invalid_enum (reply eid : Str) (kvs : List (Str × Json))
    (tv : Json)
    (hex : extract_json_from_response reply
      ("classification for ".toList ++ eid) = .ok (Json.obj kvs))
    (htv : jsonGet (Json.obj kvs) "content_type".toList = some tv)
    (hinv : isValidContentType tv = false) :
    ∃ e, classifyParse reply eid = .error e ∧ e.kind = .validation := by
  unfold classifyParse
  rw [hex]
  show ∃ e, (validate_dict_keys (Json.obj kvs)
      ["content_type".toList, "confidence".toList, "reasoning".toList]
      "Classification result".toList >>= fun _ =>
      match jsonGet (Json.obj kvs) "content_type".toList with
      | some tv =>
        if isValidContentType tv then Except.ok (Json.obj kvs)
        else .error ⟨.validation, "Invalid content_type: ".toList ++ pyStrOf tv⟩
      | none => .error ⟨.validation, "Invalid content_type: ".toList⟩) = .error e ∧
      e.kind = .validation
  cases hv : validate_dict_keys (Json.obj kvs)
      ["content_type".toList, "confidence".toList, "reasoning".toList]
      "Classification result".toList with
  | error e2 =>
    exact ⟨e2, rfl, validate_dict_keys_err_kind _ _ _ _ hv⟩
  | ok u =>
    cases u
    rw [show ((Except.ok () : Except PipeError Unit) >>= fun _ =>
        (match jsonGet (Json.obj kvs) "content_type".toList with
        | some tv =>
          if isValidContentType tv then Except.ok (Json.obj kvs)
          else .error ⟨.validation, "Invalid content_type: ".toList ++ pyStrOf tv⟩
        | none =>
          (.error ⟨.validation, "Invalid content_type: ".toList⟩ : Except PipeError Json))) =
        (match jsonGet (Json.obj kvs) "content_type".toList with
        | some tv =>
          if isValidContentType tv then Except.ok (Json.obj kvs)
          else .error ⟨.validation, "Invalid content_type: ".toList ++ pyStrOf tv⟩
        | none => .error ⟨.validation, "Invalid content_type: ".toList⟩) from rfl]
    refine ⟨⟨.validation, "Invalid content_type: ".toList ++ pyStrOf tv⟩, ?_, rfl⟩
    simp only [htv, hinv]
    rfl

/-- C2: a collaborator reply that parses as a mapping whose `content_type`
value is outside the fixed enum makes `Classifier.run` fail with
`ValidationError` (the value is not coerced), and the item's pipeline result
is `failed`. -/
theorem classifier_rejects_invalid_type (fs : FS) (item : WorkItem)
    (reply : Str) (kvs : List (Str × Json)) (tv : Json)
    (hrep : item.replies.classifyReply = .ok reply)
    (hex : extract_json_from_response reply
      ("classification for ".toList ++ effectiveId item) = .ok (Json.obj kvs))
    (htv : jsonGet (Json.obj kvs) "content_type".toList = some tv)
    (hinv : isValidContentType tv = false) :
    (∃ e, (ContentClassifier.classify item.replies.classifyReply
      (effectiveId item)).1 = .error e ∧ e.kind = .validation) ∧
    (ContentPipeline.process fs item).result.status = "failed".toList := by
  obtain ⟨e, he, hk⟩ := classifyParse_invalid_enum reply (effectiveId item) kvs tv hex htv hinv
  have hcl : ContentClassifier.classify item.replies.classifyReply (effectiveId item) =
      (.error ⟨e.kind, "Classification failed: ".toList ++ e.msg⟩,
       [⟨"CLASSIFY".toList, "FAILURE".toList⟩]) := by
    rw [hrep]
    show (match classifyParse reply (effectiveId item) with
      | Except.ok result => ((Except.ok result : Except PipeError Json),
          [(⟨"CLASSIFY".toList, "SUCCESS".toList⟩ : LogEvent)])
      | Except.error e =>
        (Except.error ⟨e.kind, "Classification failed: ".toList ++ e.msg⟩,
         [⟨"CLASSIFY".toList, "FAILURE".toList⟩])) = _
    rw [he]
  refine ⟨⟨⟨e.kind, "Classification failed: ".toList ++ e.msg⟩, by rw [hcl], hk⟩, ?_⟩
  simp only [ContentPipeline.process, hcl]
  rfl

/-- Witness for C2: the enum value `sports_news` is rejected and the item
fails. -/
theorem classifier_rejects_invalid_type_witness :
    (∃ e, (ContentClassifier.classify
      (.ok "\x7b\"content_type\": \"sports_news\", \"confidence\": 0.9, \"reasoning\": \"x\"\x7d".toList)
      "id1".toList).1 = .error e ∧ e.kind = .validation) ∧
    (ContentPipeline.process ⟨[], []⟩
      ⟨"text".toList, some "id1".toList, none, "auto".toList, "ts".toList,
       ⟨.ok "\x7b\"content_type\": \"sports_news\", \"confidence\": 0.9, \"reasoning\": \"x\"\x7d".toList,
        .ok "\x7b\x7d".toList, .ok "\x7b\x7d".toList⟩⟩).result.status = "failed".toList :=
  classifier_rejects_invalid_type ⟨[], []⟩
    ⟨"text".toList, some "id1".toList, none, "auto".toList, "ts".toList,
     ⟨.ok "\x7b\"content_type\": \"sports_news\", \"confidence\": 0.9, \"reasoning\": \"x\"\x7d".toList,
      .ok "\x7b\x7d".toList, .ok "\x7b\x7d".toList⟩⟩
    "\x7b\"content_type\": \"sports_news\", \"confidence\": 0.9, \"reasoning\": \"x\"\x7d".toList
    [("content_type".toList, Json.str "sports_news".toList),
     ("confidence".toList, Json.num "0.9".toList),
     ("reasoning".toList, Json.str ['x'])]
    (Json.str "sports_news".toList) rfl rfl rfl rfl

theorem classify_ok_red (text id : Str) :
    ContentClassifier.classify (.ok text) id =
      (match classifyParse text id with
       | Except.ok result =>
         ((Except.ok result : Except PipeError Json),
          [(⟨"CLASSIFY".toList, "SUCCESS".toList⟩ : LogEvent)])
       | Except.error e =>
         (Except.error ⟨e.kind, "Classification failed: ".toList ++ e.msg⟩,
          [⟨"CLASSIFY".toList, "FAILURE".toList⟩])) := rfl

theorem extract_ok_red (text c ct id : Str) :
    MetadataExtractor.extract (.ok text) c ct id =
      (match extractorParse text id with
       | Except.ok md =>
         ((Except.ok md : Except PipeError Json),
          [(⟨"EXTRACT".toList, "SUCCESS".toList⟩ : LogEvent)])
       | Except.error e =>
         (Except.error ⟨e.kind, "Metadata extraction failed: ".toList ++ e.msg⟩,
          [⟨"EXTRACT".toList, "FAILURE".toList⟩])) := rfl

theorem generate_ok_red (text id : Str) :
    HeadlineGenerator.generate (.ok text) id =
      (match generatorParse text id with
       | Except.ok hd =>
         ((Except.ok hd : Except PipeError Json),
          [(⟨"GENERATE".toList, "SUCCESS".toList⟩ : LogEvent)])
       | Except.error e =>
         (Except.error ⟨e.kind, "Headline generation failed: ".toList ++ e.msg⟩,
          [⟨"GENERATE".toList, "FAILURE".toList⟩])) := rfl

theorem classify_event_stages (r : Except Str Str) (id : Str) :
    ∀ ev ∈ (ContentClassifier.classify r id).2, ev.stage = "CLASSIFY".toList := by
  cases r with
  | error m => intro ev hev; rw [List.mem_singleton.mp hev]
  | ok text =>
    rw [classify_ok_red]
    cases hp : classifyParse text id with
    | ok res => intro ev hev; rw [List.mem_singleton.mp hev]
    | error e => intro ev hev; rw [List.mem_singleton.mp hev]

theorem extract_event_stages (r : Except Str Str) (c ct id : Str) :
    ∀ ev ∈ (MetadataExtractor.extract r c ct id).2, ev.stage = "EXTRACT".toList := by
  cases r with
  | error m => intro ev hev; rw [List.mem_singleton.mp hev]
  | ok text =>
    rw [extract_ok_red]
    cases hp : extractorParse text id with
    | ok md => intro ev hev; rw [List.mem_singleton.mp hev]
    | error e => intro ev hev; rw [List.mem_singleton.mp hev]

theorem generate_event_stages (r : Except Str Str) (id : Str) :
    ∀ ev ∈ (HeadlineGenerator.generate r id).2, ev.stage = "GENERATE".toList := by
  cases r with
  | error m => intro ev hev; rw [List.mem_singleton.mp hev]
  | ok text =>
    rw [generate_ok_red]
    cases hp : generatorParse text id with
    | ok hd => intro ev hev; rw [List.mem_singleton.mp hev]
    | error e => intro ev hev; rw [List.mem_singleton.mp hev]

/-- C1: if the classify, extract or generate stage of an item errors, the
orchestrator returns a `failed` result, the Router is never invoked (no
`ROUTE` log event), no record file is written, and the bucket counters are
unchanged. -/
theorem pipeline_failure_no_route (fs : FS) (item : WorkItem)
    (h : (ContentClassifier.classify item.replies.classifyReply
        (effectiveId item)).1.isOk = false ∨
      (∀ ct, (MetadataExtractor.extract item.replies.extractReply item.content ct
        (effectiveId item)).1.isOk = false) ∨
      (HeadlineGenerator.generate item.replies.generateReply
        (effectiveId item)).1.isOk = false) :
    (ContentPipeline.process fs item).result.status = "failed".toList ∧
    (ContentPipeline.process fs item).fs = fs ∧
    (∀ ev ∈ (ContentPipeline.process fs item).events, ev.stage ≠ "ROUTE".toList) ∧
    ContentRouter.get_routing_stats (ContentPipeline.process fs item).fs =
      ContentRouter.get_routing_stats fs := by
  rcases hcl : ContentClassifier.classify item.replies.classifyReply (effectiveId item)
    with ⟨cres, cev⟩
  have hcev : ∀ ev ∈ cev, ev.stage = "CLASSIFY".toList := by
    have h0 := classify_event_stages item.replies.classifyReply (effectiveId item)
    rw [hcl] at h0
    exact h0
  cases cres with
  | error e =>
    have hred : ContentPipeline.process fs item =
        ⟨fs, failedResult (effectiveId item) e.msg,
         [⟨"PROCESS_START".toList, "SUCCESS".toList⟩] ++ cev⟩ := by
      simp only [ContentPipeline.process, hcl]
    refine ⟨by rw [hred]; rfl, by rw [hred], ?_, by rw [hred]⟩
    rw [hred]
    intro ev hev
    rcases List.mem_append.mp hev with h1 | h2
    · rw [List.mem_singleton.mp h1]
      decide
    · rw [hcev ev h2]
      decide
  | ok classification =>
    rcases hext : MetadataExtractor.extract item.replies.extractReply item.content
        (contentTypeOf classification) (effectiveId item) with ⟨eres, eev⟩
    have heev : ∀ ev ∈ eev, ev.stage = "EXTRACT".toList := by
      have h0 := extract_event_stages item.replies.extractReply item.content
        (contentTypeOf classification) (effectiveId item)
      rw [hext] at h0
      exact h0
    cases eres with
    | error e2 =>
      have hred : ContentPipeline.process fs item =
          ⟨fs, failedResult (effectiveId item) e2.msg,
           [⟨"PROCESS_START".toList, "SUCCESS".toList⟩] ++ cev ++ eev⟩ := by
        simp only [ContentPipeline.process, hcl, hext]
      refine ⟨by rw [hred]; rfl, by rw [hred], ?_, by rw [hred]⟩
      rw [hred]
      intro ev hev
      rcases List.mem_append.mp hev with h12 | h3
      · rcases List.mem_append.mp h12 with h1 | h2
        · rw [List.mem_singleton.mp h1]
          decide
        · rw [hcev ev h2]
          decide
      · rw [heev ev h3]
        decide
    | ok metadata =>
      rcases h with h1 | h2 | h3
      · rw [hcl] at h1
        exact Bool.noConfusion h1
      · have h2c := h2 (contentTypeOf classification)
        rw [hext] at h2c
        exact Bool.noConfusion h2c
      · rcases hgen : HeadlineGenerator.generate item.replies.generateReply
            (effectiveId item) with ⟨gres, gev⟩
        have hgev : ∀ ev ∈ gev, ev.stage = "GENERATE".toList := by
          have h0 := generate_event_stages item.replies.generateReply (effectiveId item)
          rw [hgen] at h0
          exact h0
        cases gres with
        | error e3 =>
          have hred : ContentPipeline.process fs item =
              ⟨fs, failedResult (effectiveId item) e3.msg,
               [⟨"PROCESS_START".toList, "SUCCESS".toList⟩] ++ cev ++ eev ++ gev⟩ := by
            simp only [ContentPipeline.process, hcl, hext, hgen]
          refine ⟨by rw [hred]; rfl, by rw [hred], ?_, by rw [hred]⟩
          rw [hred]
          intro ev hev
          rcases List.mem_append.mp hev with h123 | h4
          · rcases List.mem_append.mp h123 with h12 | h3b
            · rcases List.mem_append.mp h12 with h1b | h2b
              · rw [List.mem_singleton.mp h1b]
                decide
              · rw [hcev ev h2b]
                decide
            · rw [heev ev h3b]
              decide
          · rw [hgev ev h4]
            decide
        | ok headlines =>
          rw [hgen] at h3
          exact Bool.noConfusion h3

/-- Witness for C1 (the spec's scenario B): an empty classification reply
makes the item fail and leaves the output tree untouched. -/
theorem pipeline_failure_no_route_witness :
    (ContentPipeline.process ⟨[], []⟩
      ⟨"text".toList, some "id1".toList, none, "auto".toList, "ts".toList,
       ⟨.ok [], .ok "\x7b\x7d".toList, .ok "\x7b\x7d".toList⟩⟩).result.status =
      "failed".toList ∧
    (ContentPipeline.process ⟨[], []⟩
      ⟨"text".toList, some "id1".toList, none, "auto".toList, "ts".toList,
       ⟨.ok [], .ok "\x7b\x7d".toList, .ok "\x7b\x7d".toList⟩⟩).fs = ⟨[], []⟩ :=
  have h := pipeline_failure_no_route ⟨[], []⟩
    ⟨"text".toList, some "id1".toList, none, "auto".toList, "ts".toList,
     ⟨.ok [], .ok "\x7b\x7d".toList, .ok "\x7b\x7d".toList⟩⟩ (Or.inl rfl)
  ⟨h.1, h.2.1⟩

theorem process_result_state_indep (fs fs' : FS) (item : WorkItem) :
    (ContentPipeline.process fs item).result = (ContentPipeline.process fs' item).result := by
  rcases hcl : ContentClassifier.classify item.replies.classifyReply (effectiveId item)
    with ⟨cres, cev⟩
  cases cres with
  | error e => simp only [ContentPipeline.process, hcl]
  | ok classification =>
    rcases hext : MetadataExtractor.extract item.replies.extractReply item.content
        (contentTypeOf classification) (effectiveId item) with ⟨eres, eev⟩
    cases eres with
    | error e2 => simp only [ContentPipeline.process, hcl, hext]
    | ok metadata =>
      rcases hgen : HeadlineGenerator.generate item.replies.generateReply
          (effectiveId item) with ⟨gres, gev⟩
      cases gres with
      | error e3 => simp only [ContentPipeline.process, hcl, hext, hgen]
      | ok headlines =>
        simp only [ContentPipeline.process, hcl, hext, hgen]
        rfl

theorem process_status_cases (fs : FS) (item : WorkItem) :
    (ContentPipeline.process fs item).result.status = "success".toList ∨
    (ContentPipeline.process fs item).result.status = "failed".toList := by
  rcases hcl : ContentClassifier.classify item.replies.classifyReply (effectiveId item)
    with ⟨cres, cev⟩
  cases cres with
  | error e =>
    right
    simp only [ContentPipeline.process, hcl]
    rfl
  | ok classification =>
    rcases hext : MetadataExtractor.extract item.replies.extractReply item.content
        (contentTypeOf classification) (effectiveId item) with ⟨eres, eev⟩
    cases eres with
    | error e2 =>
      right
      simp only [ContentPipeline.process, hcl, hext]
      rfl
    | ok metadata =>
      rcases hgen : HeadlineGenerator.generate item.replies.generateReply
          (effectiveId item) with ⟨gres, gev⟩
      cases gres with
      | error e3 =>
        right
        simp only [ContentPipeline.process, hcl, hext, hgen]
        rfl
      | ok headlines =>
        left
        simp only [ContentPipeline.process, hcl, hext, hgen]
        rfl

theorem processItems_results (contents : List WorkItem) :
    ∀ fs : FS, (processItems fs contents).2 =
      contents.map (fun it => (ContentPipeline.process fs it).result) := by
  induction contents with
  | nil => intro fs; rfl
  | cons it rest ih =>
    intro fs
    show ((ContentPipeline.process fs it).result ::
      (processItems (ContentPipeline.process fs it).fs rest).2) = _
    rw [ih ((ContentPipeline.process fs it).fs), List.map_cons]
    congr 1
    exact List.map_congr_left (fun a _ => process_result_state_indep _ fs a)

/-- C8: the batch entry point yields one result per submitted item in
submission order (each item's result is exactly what processing that item
yields, so one failure never aborts or skips the rest), every result is
tagged `success` or `failed`, and the reported aggregate and routing stats
snapshot are consistent: `total` is the number of submitted items,
`successful` counts the `success` results, `successful + failed = total`,
and `stats` is the routing snapshot of the final output tree. -/
theorem process_batch_spec (fs : FS) (contents : List WorkItem) :
    (ContentPipeline.process_batch fs contents).results =
      contents.map (fun it => (ContentPipeline.process fs it).result) ∧
    (ContentPipeline.process_batch fs contents).results.length = contents.length ∧
    (∀ r ∈ (ContentPipeline.process_batch fs contents).results,
      r.status = "success".toList ∨ r.status = "failed".toList) ∧
    (ContentPipeline.process_batch fs contents).summary.total = contents.length ∧
    (ContentPipeline.process_batch fs contents).summary.successful =
      ((ContentPipeline.process_batch fs contents).results.filter
        (fun r => decide (r.status = "success".toList))).length ∧
    (ContentPipeline.process_batch fs contents).summary.successful +
      (ContentPipeline.process_batch fs contents).summary.failed =
      (ContentPipeline.process_batch fs contents).summary.total ∧
    (ContentPipeline.process_batch fs contents).summary.stats =
      ContentRouter.get_routing_stats (ContentPipeline.process_batch fs contents).fs := by
  have hres : (ContentPipeline.process_batch fs contents).results =
      contents.map (fun it => (ContentPipeline.process fs it).result) :=
    processItems_results contents fs
  refine ⟨hres, ?_, ?_, ?_, rfl, ?_, rfl⟩
  · rw [hres, List.length_map]
  · intro r hr
    rw [hres] at hr
    rcases List.mem_map.mp hr with ⟨it2, -, rfl⟩
    exact process_status_cases fs it2
  · show (processItems fs contents).2.length = contents.length
    rw [processItems_results contents fs, List.length_map]
  · show ((processItems fs contents).2.filter
        (fun r => decide (r.status = "success".toList))).length +
      ((processItems fs contents).2.length -
        ((processItems fs contents).2.filter
          (fun r => decide (r.status = "success".toList))).length) =
      (processItems fs contents).2.length
    exact Nat.add_sub_cancel' (List.length_filter_le _ _)

/-- Witness for C8 on a concrete two-item batch (second item fails). -/
theorem process_batch_spec_witness :
    (ContentPipeline.process_batch ⟨[], []⟩
      [⟨"t1".toList, some "b1".toList, none, "auto".toList, "ts".toList,
        ⟨.ok [], .ok [], .ok []⟩⟩,
       ⟨"t2".toList, some "b2".toList, none, "auto".toList, "ts".toList,
        ⟨.ok [], .ok [], .ok []⟩⟩]).summary.total = 2 :=
  (process_batch_spec ⟨[], []⟩
    [⟨"t1".toList, some "b1".toList, none, "auto".toList, "ts".toList,
      ⟨.ok [], .ok [], .ok []⟩⟩,
     ⟨"t2".toList, some "b2".toList, none, "auto".toList, "ts".toList,
      ⟨.ok [], .ok [], .ok []⟩⟩]).2.2.2.1

theorem isJsonWs_isPySpace {c : Char} (h : isJsonWs c = true) : isPySpace c = true := by
  unfold isJsonWs at h
  unfold isPySpace
  simp only [Bool.or_eq_true, decide_eq_true_eq] at h ⊢
  rcases h with ((h | h) | h) | h <;> simp [h]

theorem jsonWs_ne_tick {x : Char} (h : isJsonWs x = true) : x ≠ '`' := by
  intro he
  subst he
  exact absurd h (by decide)

theorem jsonWs_ne_digit {x : Char} (h : isJsonWs x = true) : x.isDigit = false := by
  unfold isJsonWs at h
  simp only [Bool.or_eq_true, decide_eq_true_eq] at h
  rcases h with ((h | h) | h) | h <;> subst h <;> decide

theorem wsOf_append_skipWs (l : Str) : wsOf l ++ skipWs l = l :=
  List.takeWhile_append_dropWhile isJsonWs l

theorem mem_wsOf {x : Char} {l : Str} (h : x ∈ wsOf l) : isJsonWs x = true :=
  List.mem_takeWhile_imp h

theorem dropWhile_head_false {α} {p : α → Bool} {l : List α} {c : α} {r : List α}
    (h : l.dropWhile p = c :: r) : p c = false := by
  induction l with
  | nil => exact absurd h (by simp)
  | cons a t ih =>
    rw [List.dropWhile_cons] at h
    by_cases hp : p a = true
    · rw [if_pos hp] at h
      exact ih h
    · rw [if_neg hp] at h
      cases h
      exact Bool.not_eq_true _ ▸ Bool.of_not_eq_true hp

theorem skipWs_head {l : Str} {c : Char} {r : Str} (h : skipWs l = c :: r) :
    isJsonWs c = false := dropWhile_head_false h

theorem stripEndWs_append_endWsOf (l : Str) : stripEndWs l ++ endWsOf l = l := by
  unfold stripEndWs endWsOf
  rw [← List.reverse_append, List.takeWhile_append_dropWhile, List.reverse_reverse]

theorem mem_endWsOf {x : Char} {l : Str} (h : x ∈ endWsOf l) : isJsonWs x = true := by
  unfold endWsOf at h
  rw [List.mem_reverse] at h
  exact List.mem_takeWhile_imp h

theorem stripEndWs_getLast {l : Str} {z : Char}
    (h : (stripEndWs l).getLast? = some z) : isJsonWs z = false := by
  unfold stripEndWs at h
  rw [List.getLast?_reverse] at h
  cases hd : l.reverse.dropWhile isJsonWs with
  | nil => rw [hd] at h; exact Option.noConfusion h
  | cons c r =>
    rw [hd] at h
    cases h
    exact dropWhile_head_false hd

theorem dropWhile_append_last {α} {p : α → Bool} {a : α} (x : List α)
    (ha : p a = false) : List.dropWhile p (x ++ [a]) = List.dropWhile p x ++ [a] := by
  induction x with
  | nil =>
    simp only [List.nil_append, List.dropWhile_nil]
    rw [List.dropWhile_cons, if_neg (by rw [ha]; exact Bool.noConfusion)]
  | cons b y ih =>
    rw [List.cons_append, List.dropWhile_cons, List.dropWhile_cons]
    by_cases hb : p b = true
    · rw [if_pos hb, if_pos hb, ih]
    · rw [if_neg hb, if_neg hb, List.cons_append]

theorem stripEndWs_cons_of {a : Char} {t : Str} (ha : isJsonWs a = false) :
    stripEndWs (a :: t) = a :: stripEndWs t := by
  unfold stripEndWs
  rw [List.reverse_cons, dropWhile_append_last _ ha, List.reverse_append]
  rfl

theorem skipWs_append_ws {w : Str} (l : Str) (hw : ∀ x ∈ w, isJsonWs x = true) :
    skipWs (w ++ l) = skipWs l := by
  induction w with
  | nil => rfl
  | cons a t ih =>
    rw [List.cons_append]
    unfold skipWs
    rw [List.dropWhile_cons, if_pos (hw a (List.mem_cons_self a t))]
    exact ih (fun x hx => hw x (List.mem_cons_of_mem a hx))

theorem takeWhile_append_ws {p : Char → Bool} {w : Str} (l : Str)
    (hw : ∀ x ∈ w, p x = true) :
    List.takeWhile p (w ++ l) = w ++ List.takeWhile p l := by
  induction w with
  | nil => rfl
  | cons a t ih =>
    rw [List.cons_append, List.takeWhile_cons, if_pos (hw a (List.mem_cons_self a t)),
      ih (fun x hx => hw x (List.mem_cons_of_mem a hx)), List.cons_append]

theorem takeWhile_cons_false {p : Char → Bool} {a : Char} (t : Str)
    (ha : p a = false) : List.takeWhile p (a :: t) = [] := by
  rw [List.takeWhile_cons, if_neg (by rw [ha]; exact Bool.noConfusion)]

theorem noNlTick_cons_iff {c : Char} {l : Str} :
    noNlTick (c :: l) = true ↔
      (noNlTick l = true ∧ ¬(c = '\n' ∧ l.head? = some '`')) := by
  cases l with
  | nil =>
    constructor
    · intro _
      exact ⟨rfl, by rintro ⟨-, hbad⟩; exact Option.noConfusion hbad⟩
    · intro _
      rfl
  | cons b r =>
    show (!(decide (c = '\n') && decide (b = '`')) && noNlTick (b :: r)) = true ↔ _
    rw [Bool.and_eq_true, Bool.not_eq_true', Bool.and_eq_false_iff]
    constructor
    · rintro ⟨h1, h2⟩
      refine ⟨h2, ?_⟩
      rintro ⟨hc, hb⟩
      rw [List.head?_cons] at hb
      injection hb with hbe
      subst hbe
      rcases h1 with h1 | h1
      · rw [decide_eq_true hc] at h1
        exact Bool.noConfusion h1
      · rw [decide_eq_true rfl] at h1
        exact Bool.noConfusion h1
    · rintro ⟨h1, h2⟩
      refine ⟨?_, h1⟩
      by_cases hc : c = '\n'
      · right
        apply decide_eq_false
        intro hb
        exact h2 ⟨hc, by rw [List.head?_cons, hb]⟩
      · left
        exact decide_eq_false hc

theorem noNlTick_nil : noNlTick [] = true := rfl

theorem noNlTick_append {a b : Str} (ha : noNlTick a = true) (hb : noNlTick b = true)
    (hside : ∀ z, a.getLast? = some z → z = '\n' → b.head? ≠ some '`') :
    noNlTick (a ++ b) = true := by
  induction a with
  | nil => exact hb
  | cons c a' ih =>
    rw [List.cons_append, noNlTick_cons_iff]
    rw [noNlTick_cons_iff] at ha
    constructor
    · apply ih ha.1
      intro z hz hnl
      apply hside z _ hnl
      cases a' with
      | nil => exact absurd hz (by simp)
      | cons d a'' =>
        rw [List.getLast?_cons_cons]
        exact hz
    · rintro ⟨hc, hhead⟩
      cases a' with
      | nil =>
        exact hside c rfl hc hhead
      | cons d a'' =>
        rw [List.cons_append, List.head?_cons] at hhead
        exact ha.2 ⟨hc, by rw [List.head?_cons, hhead]⟩

theorem noNlTick_of_no_tick {l : Str} (h : ∀ x ∈ l, x ≠ '`') : noNlTick l = true := by
  induction l with
  | nil => rfl
  | cons c l' ih =>
    rw [noNlTick_cons_iff]
    refine ⟨ih (fun x hx => h x (List.mem_cons_of_mem c hx)), ?_⟩
    rintro ⟨-, hhd⟩
    cases l' with
    | nil => exact Option.noConfusion hhd
    | cons d l'' =>
      rw [List.head?_cons] at hhd
      cases hhd
      exact h '`' (List.mem_cons_of_mem c (List.mem_cons_self _ _)) rfl

theorem noNlTick_of_no_nl {l : Str} (h : ∀ x ∈ l, x ≠ '\n') : noNlTick l = true := by
  induction l with
  | nil => rfl
  | cons c l' ih =>
    rw [noNlTick_cons_iff]
    refine ⟨ih (fun x hx => h x (List.mem_cons_of_mem c hx)), ?_⟩
    rintro ⟨hc, -⟩
    exact h c (List.mem_cons_self c l') hc

theorem noNlTick_ws {l : Str} (h : ∀ x ∈ l, isJsonWs x = true) : noNlTick l = true :=
  noNlTick_of_no_tick (fun x hx => jsonWs_ne_tick (h x hx))

theorem digit_ne_nl {c : Char} (h : c.isDigit = true) : c ≠ '\n' := by
  intro he
  subst he
  exact absurd h (by decide)

theorem digit_ne_tick {c : Char} (h : c.isDigit = true) : c ≠ '`' := by
  intro he
  subst he
  exact absurd h (by decide)

theorem pySpace_not_digit {c : Char} (h : isPySpace c = true) : c.isDigit = false := by
  unfold isPySpace at h
  simp only [Bool.or_eq_true, decide_eq_true_eq] at h
  rcases h with ((((h | h) | h) | h) | h) | h <;> subst h <;> decide

theorem digit_not_pySpace {c : Char} (h : c.isDigit = true) : isPySpace c = false := by
  cases hp : isPySpace c with
  | false => rfl
  | true => rw [pySpace_not_digit hp] at h; exact Bool.noConfusion h

theorem hex_ne_nl {c : Char} (h : isHex c = true) : c ≠ '\n' := by
  intro he
  subst he
  exact absurd h (by decide)

theorem bound_ne_nl {c : Char} (h : 0x20 ≤ c.toNat) : c ≠ '\n' := by
  intro he
  subst he
  exact absurd h (by decide)

theorem parseStringLit_split : ∀ (n : Nat) (cs : Str), cs.length ≤ n →
    ∀ s rest, parseStringLit cs = some (s, rest) →
    ∃ p, cs = p ++ rest ∧ (∀ x ∈ p, x ≠ '\n') ∧ p.getLast? = some '"' := by
  intro n
  induction n with
  | zero =>
    intro cs hlen s rest h
    have hnil : cs = [] := List.length_eq_zero.mp (Nat.le_zero.mp hlen)
    subst hnil
    exact Option.noConfusion h
  | succ n ih =>
    intro cs hlen s rest h
    rw [parseStringLit.eq_def] at h
    split at h
    · exact Option.noConfusion h
    · next r =>
      injection h with h2
      have hs : ([] : Str) = s ∧ r = rest := Prod.mk.injEq .. ▸ h2
      obtain ⟨-, hs2⟩ := hs
      subst hs2
      refine ⟨['"'], rfl, ?_, rfl⟩
      intro x hx
      rw [List.mem_singleton.mp hx]
      decide
    · next c r =>
      rw [List.length_cons, List.length_cons] at hlen
      have hrlen : r.length ≤ n := by omega
      split at h
      · next hesc =>
        cases hin : parseStringLit r with
        | none => rw [hin] at h; exact Option.noConfusion h
        | some pr =>
          rw [hin] at h
          obtain ⟨s2, rest2⟩ := pr
          injection h with h2
          have hps : '\\' :: c :: s2 = s ∧ rest2 = rest := Prod.mk.injEq .. ▸ h2
          obtain ⟨-, hr2⟩ := hps
          obtain ⟨p', hp1, hp2, hp3⟩ := ih r hrlen s2 rest2 hin
          rw [hr2] at hp1
          have hpne : p' ≠ [] := by
            intro he
            rw [he] at hp3
            exact Option.noConfusion hp3
          obtain ⟨q, p'', hq⟩ := List.exists_cons_of_ne_nil hpne
          refine ⟨'\\' :: c :: p', by rw [hp1]; rfl, ?_, ?_⟩
          · intro x hx
            rcases List.mem_cons.mp hx with rfl | hx2
            · decide
            · rcases List.mem_cons.mp hx2 with rfl | hx3
              · simp only [Bool.or_eq_true, decide_eq_true_eq] at hesc
                rcases hesc with ((((((h1 | h1) | h1) | h1) | h1) | h1) | h1) | h1 <;>
                  subst h1 <;> decide
              · exact hp2 x hx3
          · rw [hq, List.getLast?_cons_cons, List.getLast?_cons_cons, ← hq]
            exact hp3
      · next hesc =>
        split at h
        · next hcu =>
          subst hcu
          split at h
          · next p1 p2 p3 p4 p5 =>
            split at h
            · next hhex =>
              cases hin : parseStringLit p5 with
              | none => rw [hin] at h; exact Option.noConfusion h
              | some pr =>
                rw [hin] at h
                obtain ⟨s2, rest2⟩ := pr
                injection h with hh2
                have hps : '\\' :: 'u' :: p1 :: p2 :: p3 :: p4 :: s2 = s ∧ rest2 = rest :=
                  Prod.mk.injEq .. ▸ hh2
                obtain ⟨-, hr2⟩ := hps
                have hp5len : p5.length ≤ n := by
                  simp only [List.length_cons] at hrlen
                  omega
                obtain ⟨p', hp1, hp2, hp3⟩ := ih p5 hp5len s2 rest2 hin
                rw [hr2] at hp1
                have hpne : p' ≠ [] := by
                  intro he
                  rw [he] at hp3
                  exact Option.noConfusion hp3
                obtain ⟨q, p'', hq⟩ := List.exists_cons_of_ne_nil hpne
                simp only [Bool.and_eq_true] at hhex
                refine ⟨'\\' :: 'u' :: p1 :: p2 :: p3 :: p4 :: p', by rw [hp1]; rfl, ?_, ?_⟩
                · intro x hx
                  rcases List.mem_cons.mp hx with rfl | hx
                  · decide
                  rcases List.mem_cons.mp hx with rfl | hx
                  · decide
                  rcases List.mem_cons.mp hx with rfl | hx
                  · exact hex_ne_nl hhex.1.1.1
                  rcases List.mem_cons.mp hx with rfl | hx
                  · exact hex_ne_nl hhex.1.1.2
                  rcases List.mem_cons.mp hx with rfl | hx
                  · exact hex_ne_nl hhex.1.2
                  rcases List.mem_cons.mp hx with rfl | hx
                  · exact hex_ne_nl hhex.2
                  exact hp2 x hx
                · rw [hq]
                  rw [List.getLast?_cons_cons, List.getLast?_cons_cons,
                    List.getLast?_cons_cons, List.getLast?_cons_cons,
                    List.getLast?_cons_cons, List.getLast?_cons_cons, ← hq]
                  exact hp3
            · exact Option.noConfusion h
          · exact Option.noConfusion h
        · exact Option.noConfusion h
    · next c r hne1 hne2 =>
      split at h
      · next hc =>
        cases hin : parseStringLit r with
        | none => rw [hin] at h; exact Option.noConfusion h
        | some pr =>
          rw [hin] at h
          obtain ⟨s2, rest2⟩ := pr
          injection h with h2
          have hps : c :: s2 = s ∧ rest2 = rest := Prod.mk.injEq .. ▸ h2
          obtain ⟨-, hr2⟩ := hps
          rw [List.length_cons] at hlen
          obtain ⟨p', hp1, hp2, hp3⟩ := ih r (by omega) s2 rest2 hin
          rw [hr2] at hp1
          have hpne : p' ≠ [] := by
            intro he
            rw [he] at hp3
            exact Option.noConfusion hp3
          obtain ⟨q, p'', hq⟩ := List.exists_cons_of_ne_nil hpne
          refine ⟨c :: p', by rw [hp1]; rfl, ?_, ?_⟩
          · intro x hx
            rcases List.mem_cons.mp hx with rfl | hx2
            · exact bound_ne_nl hc
            · exact hp2 x hx2
          · rw [hq, List.getLast?_cons_cons, ← hq]
            exact hp3
      · exact Option.noConfusion h

theorem parseIntPart_split {l ip r : Str} (h : parseIntPart l = some (ip, r)) :
    l = ip ++ r ∧ ip ≠ [] ∧ (∀ x ∈ ip, x.isDigit = true) := by
  rw [parseIntPart.eq_def] at h
  split at h
  · exact Option.noConfusion h
  · next c r0 =>
    split at h
    · next hc =>
      subst hc
      injection h with h2
      injection h2 with hp1 hp2
      subst hp1
      subst hp2
      exact ⟨rfl, by simp, fun x hx => by rw [List.mem_singleton.mp hx]; decide⟩
    · next hc =>
      split at h
      · next hd =>
        injection h with h2
        injection h2 with hp1 hp2
        subst hp1
        subst hp2
        refine ⟨?_, by simp, ?_⟩
        · show c :: r0 = c :: (takeDigits r0).1 ++ (takeDigits r0).2
          rw [List.cons_append]
          exact congrArg (c :: ·) (List.takeWhile_append_dropWhile Char.isDigit r0).symm
        · intro x hx
          rcases List.mem_cons.mp hx with rfl | hx2
          · exact hd
          · exact List.mem_takeWhile_imp hx2
      · exact Option.noConfusion h

theorem expSign_split (r : Str) :
    r = (expSign r).1 ++ (expSign r).2 ∧ (∀ x ∈ (expSign r).1, x ≠ '\n') := by
  cases r with
  | nil => exact ⟨rfl, by simp [expSign]⟩
  | cons c2 r2 =>
    by_cases hs : (c2 = '+' || c2 = '-') = true
    · have he : expSign (c2 :: r2) = ([c2], r2) := by
        show (if (c2 = '+' || c2 = '-') = true then ([c2], r2) else ([], c2 :: r2)) = _
        rw [if_pos hs]
      rw [he]
      refine ⟨rfl, ?_⟩
      intro x hx
      rw [List.mem_singleton.mp hx]
      simp only [Bool.or_eq_true, decide_eq_true_eq] at hs
      rcases hs with hs | hs <;> subst hs <;> decide
    · have he : expSign (c2 :: r2) = ([], c2 :: r2) := by
        show (if (c2 = '+' || c2 = '-') = true then ([c2], r2) else ([], c2 :: r2)) = _
        rw [if_neg hs]
      rw [he]
      exact ⟨rfl, by simp⟩

theorem parseExpPart_split (l : Str) :
    l = (parseExpPart l).1 ++ (parseExpPart l).2 ∧
    (∀ x ∈ (parseExpPart l).1, x ≠ '\n') ∧
    (∀ z, (parseExpPart l).1.getLast? = some z → z.isDigit = true) := by
  cases l with
  | nil => exact ⟨rfl, by simp [parseExpPart], fun z hz => absurd hz (by simp [parseExpPart])⟩
  | cons c r =>
    by_cases hce : (c = 'e' || c = 'E') = true
    · by_cases hd : (takeDigits (expSign r).2).1 = []
      · have he : parseExpPart (c :: r) = ([], c :: r) := by
          show (if (c = 'e' || c = 'E') = true then
            (if (takeDigits (expSign r).2).1 = [] then (([] : Str), c :: r)
             else (c :: ((expSign r).1 ++ (takeDigits (expSign r).2).1),
               (takeDigits (expSign r).2).2)) else ([], c :: r)) = _
          rw [if_pos hce, if_pos hd]
        rw [he]
        exact ⟨rfl, by simp, fun z hz => absurd hz (by simp)⟩
      · have he : parseExpPart (c :: r) =
            (c :: ((expSign r).1 ++ (takeDigits (expSign r).2).1),
             (takeDigits (expSign r).2).2) := by
          show (if (c = 'e' || c = 'E') = true then
            (if (takeDigits (expSign r).2).1 = [] then (([] : Str), c :: r)
             else (c :: ((expSign r).1 ++ (takeDigits (expSign r).2).1),
               (takeDigits (expSign r).2).2)) else ([], c :: r)) = _
          rw [if_pos hce, if_neg hd]
        rw [he]
        obtain ⟨hr1, hr2⟩ := expSign_split r
        refine ⟨?_, ?_, ?_⟩
        · show c :: r = c :: ((expSign r).1 ++ (takeDigits (expSign r).2).1) ++
            (takeDigits (expSign r).2).2
          rw [List.cons_append, List.append_assoc]
          refine congrArg (c :: ·) ?_
          rw [show (takeDigits (expSign r).2).1 ++ (takeDigits (expSign r).2).2 =
              (expSign r).2 from List.takeWhile_append_dropWhile Char.isDigit _]
          exact hr1
        · intro x hx
          rcases List.mem_cons.mp hx with rfl | hx2
          · simp only [Bool.or_eq_true, decide_eq_true_eq] at hce
            rcases hce with hc | hc <;> subst hc <;> decide
          · rcases List.mem_append.mp hx2 with hx3 | hx3
            · exact hr2 x hx3
            · exact digit_ne_nl (List.mem_takeWhile_imp hx3)
        · intro z hz
          rw [show (c :: ((expSign r).1 ++ (takeDigits (expSign r).2).1)) =
              ([c] ++ (expSign r).1) ++ (takeDigits (expSign r).2).1 from by
              rw [List.append_assoc]; rfl] at hz
          rw [List.getLast?_append] at hz
          cases hgl : ((takeDigits (expSign r).2).1).getLast? with
          | none => rw [List.getLast?_eq_none_iff] at hgl; exact absurd hgl hd
          | some d1 =>
            rw [hgl] at hz
            injection hz with hz2
            subst hz2
            exact List.mem_takeWhile_imp (List.mem_of_mem_getLast? hgl)
    · have he : parseExpPart (c :: r) = ([], c :: r) := by
        show (if (c = 'e' || c = 'E') = true then
          (if (takeDigits (expSign r).2).1 = [] then (([] : Str), c :: r)
           else (c :: ((expSign r).1 ++ (takeDigits (expSign r).2).1),
             (takeDigits (expSign r).2).2)) else ([], c :: r)) = _
        rw [if_neg hce]
      rw [he]
      exact ⟨rfl, by simp, fun z hz => absurd hz (by simp)⟩

theorem parseFracPart_split {l f r : Str} (h : parseFracPart l = (f, r)) :
    l = f ++ r ∧ (∀ x ∈ f, x ≠ '\n') ∧
    (∀ z, f.getLast? = some z → z.isDigit = true) := by
  rw [parseFracPart.eq_def] at h
  split at h
  · next r0 =>
    have h' : (if (takeDigits r0).1 = [] then (([] : Str), '.' :: r0)
        else ('.' :: (takeDigits r0).1, (takeDigits r0).2)) = (f, r) := h
    split at h'
    · injection h' with h1 h2
      subst h1
      subst h2
      exact ⟨rfl, by simp, fun z hz => absurd hz (by simp)⟩
    · next hd =>
      injection h' with h1 h2
      subst h1
      subst h2
      refine ⟨?_, ?_, ?_⟩
      · show '.' :: r0 = '.' :: (takeDigits r0).1 ++ (takeDigits r0).2
        rw [List.cons_append]
        exact congrArg ('.' :: ·) (List.takeWhile_append_dropWhile Char.isDigit r0).symm
      · intro x hx
        rcases List.mem_cons.mp hx with rfl | hx2
        · decide
        · exact digit_ne_nl (List.mem_takeWhile_imp hx2)
      · intro z hz
        rw [show ('.' :: (takeDigits r0).1) = ['.'] ++ (takeDigits r0).1 from rfl,
          List.getLast?_append] at hz
        cases hgl : ((takeDigits r0).1).getLast? with
        | none => rw [List.getLast?_eq_none_iff] at hgl; exact absurd hgl hd
        | some d1 =>
          rw [hgl] at hz
          injection hz with hz2
          subst hz2
          exact List.mem_takeWhile_imp (List.mem_of_mem_getLast? hgl)
  · injection h with h1 h2
    subst h1
    subst h2
    exact ⟨rfl, by simp, fun z hz => absurd hz (by simp)⟩

theorem parseFracPart_split2 (l : Str) :
    l = (parseFracPart l).1 ++ (parseFracPart l).2 ∧
    (∀ x ∈ (parseFracPart l).1, x ≠ '\n') ∧
    (∀ z, (parseFracPart l).1.getLast? = some z → z.isDigit = true) :=
  parseFracPart_split rfl

theorem pySign_split (l : Str) :
    pySign l = ([], l) ∨ (∃ r, l = '-' :: r ∧ pySign l = (['-'], r)) := by
  rw [pySign.eq_def]
  split
  · next r => exact Or.inr ⟨r, rfl, rfl⟩
  · exact Or.inl rfl

theorem parseNumberLit_split {cs lex rest : Str}
    (h : parseNumberLit cs = some (lex, rest)) :
    cs = lex ++ rest ∧ lex ≠ [] ∧ (∀ x ∈ lex, x ≠ '\n') ∧
    (∀ z, lex.getLast? = some z → z.isDigit = true) ∧
    (∀ z, lex.head? = some z → (z = '-' ∨ z.isDigit = true)) := by
  rcases pySign_split cs with hsig | ⟨r0, hcs, hsig⟩
  · have hred : parseNumberLit cs = (match parseIntPart cs with
        | none => none
        | some (ip, r1) =>
          some (([] : Str) ++ ip ++ (parseFracPart r1).1 ++
              (parseExpPart (parseFracPart r1).2).1,
            (parseExpPart (parseFracPart r1).2).2)) := by
      unfold parseNumberLit
      rw [hsig]
    rw [hred] at h
    cases hint : parseIntPart cs with
    | none => rw [hint] at h; exact Option.noConfusion h
    | some pr =>
      obtain ⟨ip, r1⟩ := pr
      rw [hint] at h
      injection h with h2
      injection h2 with h3 h4
      obtain ⟨hi1, hi2, hi3⟩ := parseIntPart_split hint
      obtain ⟨hf1, hf2, hf3⟩ := parseFracPart_split2 r1
      obtain ⟨he1, he2, he3⟩ := parseExpPart_split (parseFracPart r1).2
      rw [List.nil_append] at h3
      subst h3
      subst h4
      obtain ⟨i0, ip', hip⟩ := List.exists_cons_of_ne_nil hi2
      refine ⟨?_, by simp [hi2], ?_, ?_, ?_⟩
      · rw [List.append_assoc, List.append_assoc, ← he1, ← hf1]
        exact hi1
      · intro x hx
        rcases List.mem_append.mp hx with hx2 | hx2
        · rcases List.mem_append.mp hx2 with hx3 | hx3
          · exact digit_ne_nl (hi3 x hx3)
          · exact hf2 x hx3
        · exact he2 x hx2
      · intro z hz
        rw [List.getLast?_append] at hz
        cases hgl : ((parseExpPart (parseFracPart r1).2).1).getLast? with
        | some d1 =>
          rw [hgl] at hz
          injection hz with hz2
          subst hz2
          exact he3 d1 hgl
        | none =>
          rw [hgl] at hz
          rw [show (Option.none).or ((ip ++ (parseFracPart r1).1).getLast?) =
              (ip ++ (parseFracPart r1).1).getLast? from Option.none_or] at hz
          rw [List.getLast?_append] at hz
          cases hg2 : ((parseFracPart r1).1).getLast? with
          | some d2 =>
            rw [hg2] at hz
            injection hz with hz2
            subst hz2
            exact hf3 d2 hg2
          | none =>
            rw [hg2] at hz
            rw [show (Option.none).or (ip.getLast?) = ip.getLast?
              from Option.none_or] at hz
            exact hi3 z (List.mem_of_mem_getLast? hz)
      · intro z hz
        rw [hip] at hz
        rw [show ((i0 :: ip') ++ (parseFracPart r1).1 ++
            (parseExpPart (parseFracPart r1).2).1).head? = some i0 from rfl] at hz
        injection hz with hz2
        subst hz2
        exact Or.inr (hi3 i0 (hip ▸ List.mem_cons_self i0 ip'))
  · have hred : parseNumberLit cs = (match parseIntPart r0 with
        | none => none
        | some (ip, r1) =>
          some (['-'] ++ ip ++ (parseFracPart r1).1 ++
              (parseExpPart (parseFracPart r1).2).1,
            (parseExpPart (parseFracPart r1).2).2)) := by
      unfold parseNumberLit
      rw [hsig]
    rw [hred] at h
    cases hint : parseIntPart r0 with
    | none => rw [hint] at h; exact Option.noConfusion h
    | some pr =>
      obtain ⟨ip, r1⟩ := pr
      rw [hint] at h
      injection h with h2
      injection h2 with h3 h4
      obtain ⟨hi1, hi2, hi3⟩ := parseIntPart_split hint
      obtain ⟨hf1, hf2, hf3⟩ := parseFracPart_split2 r1
      obtain ⟨he1, he2, he3⟩ := parseExpPart_split (parseFracPart r1).2
      subst h3
      subst h4
      refine ⟨?_, by simp, ?_, ?_, ?_⟩
      · rw [List.append_assoc, List.append_assoc, List.append_assoc, ← he1, ← hf1]
        rw [hcs, hi1]
        rfl
      · intro x hx
        rcases List.mem_append.mp hx with hx2 | hx2
        · rcases List.mem_append.mp hx2 with hx3 | hx3
          · rcases List.mem_append.mp hx3 with hx4 | hx4
            · rw [List.mem_singleton.mp hx4]
              decide
            · exact digit_ne_nl (hi3 x hx4)
          · exact hf2 x hx3
        · exact he2 x hx2
      · intro z hz
        rw [List.getLast?_append] at hz
        cases hgl : ((parseExpPart (parseFracPart r1).2).1).getLast? with
        | some d1 =>
          rw [hgl] at hz
          injection hz with hz2
          subst hz2
          exact he3 d1 hgl
        | none =>
          rw [hgl] at hz
          rw [show (Option.none).or ((['-'] ++ ip ++ (parseFracPart r1).1).getLast?) =
              (['-'] ++ ip ++ (parseFracPart r1).1).getLast? from Option.none_or] at hz
          rw [List.getLast?_append] at hz
          cases hg2 : ((parseFracPart r1).1).getLast? with
          | some d2 =>
            rw [hg2] at hz
            injection hz with hz2
            subst hz2
            exact hf3 d2 hg2
          | none =>
            rw [hg2] at hz
            rw [show (Option.none).or ((['-'] ++ ip).getLast?) =
                (['-'] ++ ip).getLast? from Option.none_or] at hz
            rw [List.getLast?_append] at hz
            cases hg3 : ip.getLast? with
            | some d3 =>
              rw [hg3] at hz
              injection hz with hz2
              subst hz2
              exact hi3 d3 (List.mem_of_mem_getLast? hg3)
            | none =>
              rw [List.getLast?_eq_none_iff] at hg3
              exact absurd hg3 hi2
      · intro z hz
        rw [show ((['-'] ++ ip ++ (parseFracPart r1).1 ++
            (parseExpPart (parseFracPart r1).2).1)).head? = some '-' from rfl] at hz
        injection hz with hz2
        subst hz2
        exact Or.inl rfl

theorem good_append {a b : Str} (ha : GoodPiece a) (hb : GoodPiece b) :
    GoodPiece (a ++ b) := by
  obtain ⟨ha1, ha2, ha3⟩ := ha
  obtain ⟨hb1, hb2, hb3⟩ := hb
  refine ⟨?_, ?_, ?_⟩
  · apply noNlTick_append ha1 hb1
    intro z hz hnl hb4
    rw [hnl] at hz
    have := ha3 '\n' hz
    exact absurd this (by decide)
  · cases a with
    | nil => exact hb2
    | cons x a' =>
      rw [List.cons_append, List.head?_cons]
      intro hh
      rw [List.head?_cons] at ha2
      exact ha2 hh
  · intro z hz
    rw [List.getLast?_append] at hz
    cases hbl : b.getLast? with
    | some z1 =>
      rw [hbl] at hz
      injection hz with hz2
      subst hz2
      exact hb3 z1 hbl
    | none =>
      rw [hbl, Option.none_or] at hz
      exact ha3 z hz

theorem good_single {c : Char} (h1 : isPySpace c = false) (h2 : c ≠ '`') :
    GoodPiece [c] := by
  refine ⟨rfl, ?_, ?_⟩
  · intro hh
    rw [List.head?_cons] at hh
    injection hh with hh2
    exact h2 hh2
  · intro z hz
    injection hz with hz2
    subst hz2
    exact h1

theorem good_ws_sep (X : Str) {c : Char} (h1 : isPySpace c = false) (h2 : c ≠ '`') :
    GoodPiece (wsOf X ++ [c]) := by
  refine ⟨?_, ?_, ?_⟩
  · apply noNlTick_append (noNlTick_ws (fun x hx => mem_wsOf hx)) (good_single h1 h2).1
    intro z _ _ hh
    rw [List.head?_cons] at hh
    injection hh with hh2
    exact h2 hh2
  · cases hw : wsOf X with
    | nil =>
      rw [List.nil_append, List.head?_cons]
      intro hh
      injection hh with hh2
      exact h2 hh2
    | cons w ws' =>
      rw [List.cons_append, List.head?_cons]
      intro hh
      injection hh with hh2
      exact jsonWs_ne_tick (mem_wsOf (hw ▸ List.mem_cons_self w ws')) hh2
  · intro z hz
    rw [List.getLast?_concat] at hz
    injection hz with hz2
    subst hz2
    exact h1

theorem good_ws_prefix (X : Str) {Q : Str} (hQ : GoodPiece Q) (hne : Q ≠ []) :
    GoodPiece (wsOf X ++ Q) := by
  obtain ⟨h1, h2, h3⟩ := hQ
  refine ⟨?_, ?_, ?_⟩
  · apply noNlTick_append (noNlTick_ws (fun x hx => mem_wsOf hx)) h1
    intro z _ _ hh
    exact h2 hh
  · cases hw : wsOf X with
    | nil =>
      rw [List.nil_append]
      exact h2
    | cons w ws' =>
      rw [List.cons_append, List.head?_cons]
      intro hh
      injection hh with hh2
      exact jsonWs_ne_tick (mem_wsOf (hw ▸ List.mem_cons_self w ws')) hh2
  · intro z hz
    rw [List.getLast?_append] at hz
    cases hbl : Q.getLast? with
    | some z1 =>
      rw [hbl] at hz
      injection hz with hz2
      subst hz2
      exact h3 z1 hbl
    | none =>
      rw [List.getLast?_eq_none_iff] at hbl
      exact absurd hbl hne

theorem good_string {ps : Str} (hchars : ∀ x ∈ ps, x ≠ '\n')
    (hlast : ps.getLast? = some '"') : GoodPiece ('"' :: ps) := by
  refine ⟨?_, ?_, ?_⟩
  · apply noNlTick_of_no_nl
    intro x hx
    rcases List.mem_cons.mp hx with rfl | hx2
    · decide
    · exact hchars x hx2
  · rw [List.head?_cons]
    intro hh
    injection hh with hh2
    exact absurd hh2 (by decide)
  · intro z hz
    rw [show ('"' :: ps) = ['"'] ++ ps from rfl, List.getLast?_append, hlast] at hz
    injection hz with hz2
    subst hz2
    decide

theorem good_number {lex : Str} (_hne : lex ≠ [])
    (hchars : ∀ x ∈ lex, x ≠ '\n')
    (hlast : ∀ z, lex.getLast? = some z → z.isDigit = true)
    (hhead : ∀ z, lex.head? = some z → (z = '-' ∨ z.isDigit = true)) :
    GoodPiece lex := by
  refine ⟨noNlTick_of_no_nl hchars, ?_, ?_⟩
  · intro hh
    rcases hhead '`' hh with h1 | h1
    · exact absurd h1 (by decide)
    · exact absurd h1 (by decide)
  · intro z hz
    cases hps : isPySpace z with
    | false => rfl
    | true => exact absurd (hlast z hz) (by rw [pySpace_not_digit hps]; exact Bool.noConfusion)

theorem cs_decomp {cs Q rest : Str} (h : skipWs cs = Q ++ rest) :
    cs = (wsOf cs ++ Q) ++ rest := by
  rw [List.append_assoc, ← h, wsOf_append_skipWs]

/-- Witness for C10: a fresh Router over a tree already holding one match
report still reports that file in its stats. -/
theorem get_routing_stats_counts_files_witness :
    lookupStat (ContentRouter.get_routing_stats (ContentRouter.init
      ⟨[], [⟨"match_reports".toList, "a_1.json".toList,
        ⟨[], [], [], Json.null, Json.null, Json.null, [], []⟩⟩]⟩))
      "match_report".toList = some 1 := by
  rw [(get_routing_stats_counts_files _).1]
  rw [(get_routing_stats_counts_files _).2 "match_report".toList (by decide)]
  rfl

theorem expectLit_split {lit : Str} {j v : Json} {r rest : Str}
    (h : expectLit lit j r = some (v, rest)) : r = lit ++ rest ∧ v = j := by
  unfold expectLit at h
  split at h
  · next hp =>
    injection h with h2
    injection h2 with hv hr
    obtain ⟨t, ht⟩ := List.isPrefixOf_iff_prefix.mp hp
    subst ht
    rw [List.drop_left] at hr
    exact ⟨by rw [← hr], hv.symm⟩
  · exact Option.noConfusion h

theorem good_concrete {l : Str} {e : Char} (h1 : noNlTick l = true)
    (h2 : l.head? ≠ some '`') (hl : l.getLast? = some e)
    (he : isPySpace e = false) : GoodPiece l :=
  ⟨h1, h2, fun z hz => by rw [hl] at hz; injection hz with h3; subst h3; exact he⟩

theorem not_pySpace_not_jsonWs {c : Char} (h : isPySpace c = false) :
    isJsonWs c = false := by
  cases hj : isJsonWs c with
  | false => rfl
  | true => rw [isJsonWs_isPySpace hj] at h; exact Bool.noConfusion h

theorem append_ne_nil_right {a b : Str} (hb : b ≠ []) : a ++ b ≠ [] :=
  fun h => hb (List.append_eq_nil.mp h).2

theorem append_ne_nil_left {a b : Str} (ha : a ≠ []) : a ++ b ≠ [] :=
  fun h => ha (List.append_eq_nil.mp h).1

theorem parsers_safe : ∀ fuel : Nat,
    (∀ cs v rest, parseValue fuel cs = some (v, rest) →
      ∃ p, cs = p ++ rest ∧ GoodPiece p ∧ p ≠ []) ∧
    (∀ cs v rest, parseObjBody fuel cs = some (v, rest) →
      ∃ p, cs = p ++ rest ∧ GoodPiece p ∧ p ≠ []) ∧
    (∀ cs acc v rest, parseMembers fuel cs acc = some (v, rest) →
      ∃ p, cs = p ++ rest ∧ GoodPiece p ∧ p ≠ []) ∧
    (∀ cs v rest, parseArrBody fuel cs = some (v, rest) →
      ∃ p, cs = p ++ rest ∧ GoodPiece p ∧ p ≠ []) ∧
    (∀ cs acc v rest, parseItems fuel cs acc = some (v, rest) →
      ∃ p, cs = p ++ rest ∧ GoodPiece p ∧ p ≠ []) := by
  intro fuel
  induction fuel with
  | zero =>
    refine ⟨?_, ?_, ?_, ?_, ?_⟩
    · intro cs v rest h; exact Option.noConfusion h
    · intro cs v rest h; exact Option.noConfusion h
    · intro cs acc v rest h; exact Option.noConfusion h
    · intro cs v rest h; exact Option.noConfusion h
    · intro cs acc v rest h; exact Option.noConfusion h
  | succ fuel ih =>
    obtain ⟨ihV, ihO, ihM, ihA, ihI⟩ := ih
    refine ⟨?_, ?_, ?_, ?_, ?_⟩
    · intro cs v rest h
      have h' : (match skipWs cs with
        | [] => none
        | c :: r =>
          if c = '{' then parseObjBody fuel r
          else if c = '[' then parseArrBody fuel r
          else if c = '"' then (parseStringLit r).map (fun p => (Json.str p.1, p.2))
          else if c = 't' then expectLit ['r', 'u', 'e'] (Json.bool true) r
          else if c = 'f' then expectLit ['a', 'l', 's', 'e'] (Json.bool false) r
          else if c = 'n' then expectLit ['u', 'l', 'l'] Json.null r
          else if c = '-' || c.isDigit then
            (parseNumberLit (c :: r)).map (fun p => (Json.num p.1, p.2))
          else none) = some (v, rest) := h
      split at h'
      · exact Option.noConfusion h'
      · next c r hsw =>
        split at h'
        · next hc =>
          subst hc
          obtain ⟨p, hp1, hp2, hp3⟩ := ihO r v rest h'
          refine ⟨wsOf cs ++ ('{' :: p), cs_decomp (by rw [hsw, hp1]; rfl), ?_,
            append_ne_nil_right (List.cons_ne_nil _ _)⟩
          exact good_ws_prefix cs
            (good_append (good_single (by decide) (by decide)) hp2) (List.cons_ne_nil _ _)
        · next hc1 =>
          split at h'
          · next hc =>
            subst hc
            obtain ⟨p, hp1, hp2, hp3⟩ := ihA r v rest h'
            refine ⟨wsOf cs ++ ('[' :: p), cs_decomp (by rw [hsw, hp1]; rfl), ?_,
              append_ne_nil_right (List.cons_ne_nil _ _)⟩
            exact good_ws_prefix cs
              (good_append (good_single (by decide) (by decide)) hp2) (List.cons_ne_nil _ _)
          · next hc2 =>
            split at h'
            · next hc =>
              subst hc
              cases hps : parseStringLit r with
              | none => rw [hps] at h'; exact Option.noConfusion h'
              | some pr =>
                obtain ⟨s, r2⟩ := pr
                rw [hps] at h'
                injection h' with h2
                injection h2 with hveq hreq
                subst hveq
                subst hreq
                obtain ⟨ps, hr, hschars, hslast⟩ :=
                  parseStringLit_split r.length r le_rfl s r2 hps
                refine ⟨wsOf cs ++ ('"' :: ps), cs_decomp (by rw [hsw, hr]; rfl), ?_,
                  append_ne_nil_right (List.cons_ne_nil _ _)⟩
                exact good_ws_prefix cs (good_string hschars hslast) (List.cons_ne_nil _ _)
            · next hc3 =>
              split at h'
              · next hc =>
                subst hc
                obtain ⟨hr, hveq⟩ := expectLit_split h'
                subst hveq
                refine ⟨wsOf cs ++ ['t', 'r', 'u', 'e'], cs_decomp (by rw [hsw, hr]; rfl), ?_,
                  append_ne_nil_right (by decide)⟩
                exact good_ws_prefix cs
                  (good_concrete (by decide) (by decide) rfl (by decide)) (by decide)
              · next hc4 =>
                split at h'
                · next hc =>
                  subst hc
                  obtain ⟨hr, hveq⟩ := expectLit_split h'
                  subst hveq
                  refine ⟨wsOf cs ++ ['f', 'a', 'l', 's', 'e'], cs_decomp (by rw [hsw, hr]; rfl), ?_,
                    append_ne_nil_right (by decide)⟩
                  exact good_ws_prefix cs
                    (good_concrete (by decide) (by decide) rfl (by decide)) (by decide)
                · next hc5 =>
                  split at h'
                  · next hc =>
                    subst hc
                    obtain ⟨hr, hveq⟩ := expectLit_split h'
                    subst hveq
                    refine ⟨wsOf cs ++ ['n', 'u', 'l', 'l'], cs_decomp (by rw [hsw, hr]; rfl), ?_,
                      append_ne_nil_right (by decide)⟩
                    exact good_ws_prefix cs
                      (good_concrete (by decide) (by decide) rfl (by decide)) (by decide)
                  · next hc6 =>
                    split at h'
                    · next hc7 =>
                      cases hpn : parseNumberLit (c :: r) with
                      | none => rw [hpn] at h'; exact Option.noConfusion h'
                      | some pr =>
                        obtain ⟨lex, rest2⟩ := pr
                        rw [hpn] at h'
                        injection h' with h2
                        injection h2 with hveq hreq
                        subst hveq
                        subst hreq
                        obtain ⟨hsplit, hlne, hlchars, hllast, hlhead⟩ :=
                          parseNumberLit_split hpn
                        refine ⟨wsOf cs ++ lex, cs_decomp (hsw.trans hsplit), ?_,
                          append_ne_nil_right hlne⟩
                        exact good_ws_prefix cs
                          (good_number hlne hlchars hllast hlhead) hlne
                    · exact Option.noConfusion h'
    · intro cs v rest h
      have h' : (match skipWs cs with
        | [] => none
        | c :: r =>
          if c = '}' then some (Json.obj [], r)
          else parseMembers fuel cs []) = some (v, rest) := h
      split at h'
      · exact Option.noConfusion h'
      · next c r hsw =>
        split at h'
        · next hc =>
          subst hc
          injection h' with h2
          injection h2 with hveq hreq
          subst hveq
          subst hreq
          exact ⟨wsOf cs ++ ['}'], cs_decomp (by rw [hsw]; rfl),
            good_ws_sep cs (by decide) (by decide), append_ne_nil_right (by decide)⟩
        · next hc =>
          exact ihM cs [] v rest h'
    · intro cs acc v rest h
      have h' : (match skipWs cs with
        | [] => none
        | c :: r =>
          if c = '"' then
            match parseStringLit r with
            | none => none
            | some (k, r2) =>
              match skipWs r2 with
              | [] => none
              | c2 :: r3 =>
                if c2 = ':' then
                  match parseValue fuel r3 with
                  | none => none
                  | some (vv, r4) =>
                    match skipWs r4 with
                    | [] => none
                    | c3 :: r5 =>
                      if c3 = ',' then parseMembers fuel r5 (acc ++ [(k, vv)])
                      else if c3 = '}' then some (Json.obj (acc ++ [(k, vv)]), r5)
                      else none
                else none
          else none) = some (v, rest) := h
      split at h'
      · exact Option.noConfusion h'
      · next c r hsw =>
        split at h'
        · next hc =>
          subst hc
          split at h'
          · exact Option.noConfusion h'
          · next k r2 hps =>
            split at h'
            · exact Option.noConfusion h'
            · next c2 r3 hsw2 =>
              split at h'
              · next hc2 =>
                subst hc2
                split at h'
                · exact Option.noConfusion h'
                · next vv r4 hpv =>
                  split at h'
                  · exact Option.noConfusion h'
                  · next c3 r5 hsw4 =>
                    split at h'
                    · next hc3 =>
                      subst hc3
                      obtain ⟨pm, hm1, hm2, hm3⟩ := ihM r5 (acc ++ [(k, vv)]) v rest h'
                      obtain ⟨ps, hr, hschars, hslast⟩ :=
                        parseStringLit_split r.length r le_rfl k r2 hps
                      obtain ⟨pv, hv1, hv2, hv3⟩ := ihV r3 vv r4 hpv
                      refine ⟨wsOf cs ++ (('"' :: ps) ++ ((wsOf r2 ++ [':']) ++
                        (pv ++ ((wsOf r4 ++ [',']) ++ pm)))), ?_, ?_,
                        append_ne_nil_right (List.cons_ne_nil _ _)⟩
                      · apply cs_decomp
                        conv_lhs => rw [hsw, hr, ← wsOf_append_skipWs r2, hsw2, hv1,
                          ← wsOf_append_skipWs r4, hsw4, hm1]
                        simp [List.append_assoc]
                      · refine good_ws_prefix cs ?_ (List.cons_ne_nil _ _)
                        exact good_append (good_string hschars hslast)
                          (good_append (good_ws_sep r2 (by decide) (by decide))
                            (good_append hv2
                              (good_append (good_ws_sep r4 (by decide) (by decide)) hm2)))
                    · next hc3 =>
                      split at h'
                      · next hc3b =>
                        subst hc3b
                        injection h' with h2
                        injection h2 with hveq hreq
                        subst hveq
                        subst hreq
                        obtain ⟨ps, hr, hschars, hslast⟩ :=
                          parseStringLit_split r.length r le_rfl k r2 hps
                        obtain ⟨pv, hv1, hv2, hv3⟩ := ihV r3 vv r4 hpv
                        refine ⟨wsOf cs ++ (('"' :: ps) ++ ((wsOf r2 ++ [':']) ++
                          (pv ++ (wsOf r4 ++ ['}'])))), ?_, ?_,
                          append_ne_nil_right (List.cons_ne_nil _ _)⟩
                        · apply cs_decomp
                          conv_lhs => rw [hsw, hr, ← wsOf_append_skipWs r2, hsw2, hv1,
                            ← wsOf_append_skipWs r4, hsw4]
                          simp [List.append_assoc]
                        · refine good_ws_prefix cs ?_ (List.cons_ne_nil _ _)
                          exact good_append (good_string hschars hslast)
                            (good_append (good_ws_sep r2 (by decide) (by decide))
                              (good_append hv2 (good_ws_sep r4 (by decide) (by decide))))
                      · exact Option.noConfusion h'
              · exact Option.noConfusion h'
        · exact Option.noConfusion h'
    · intro cs v rest h
      have h' : (match skipWs cs with
        | [] => none
        | c :: r =>
          if c = ']' then some (Json.arr [], r)
          else parseItems fuel cs []) = some (v, rest) := h
      split at h'
      · exact Option.noConfusion h'
      · next c r hsw =>
        split at h'
        · next hc =>
          subst hc
          injection h' with h2
          injection h2 with hveq hreq
          subst hveq
          subst hreq
          exact ⟨wsOf cs ++ [']'], cs_decomp (by rw [hsw]; rfl),
            good_ws_sep cs (by decide) (by decide), append_ne_nil_right (by decide)⟩
        · next hc =>
          exact ihI cs [] v rest h'
    · intro cs acc v rest h
      have h' : (match parseValue fuel cs with
        | none => none
        | some (vv, r1) =>
          match skipWs r1 with
          | [] => none
          | c :: r2 =>
            if c = ',' then parseItems fuel r2 (acc ++ [vv])
            else if c = ']' then some (Json.arr (acc ++ [vv]), r2)
            else none) = some (v, rest) := h
      split at h'
      · exact Option.noConfusion h'
      · next vv r1 hpv =>
        obtain ⟨pv, hv1, hv2, hv3⟩ := ihV cs vv r1 hpv
        split at h'
        · exact Option.noConfusion h'
        · next c r2 hsw1 =>
          split at h'
          · next hc =>
            subst hc
            obtain ⟨pi, hi1, hi2, hi3⟩ := ihI r2 (acc ++ [vv]) v rest h'
            refine ⟨pv ++ ((wsOf r1 ++ [',']) ++ pi), ?_, ?_, append_ne_nil_left hv3⟩
            · conv_lhs => rw [hv1, ← wsOf_append_skipWs r1, hsw1, hi1]
              simp [List.append_assoc]
            · exact good_append hv2
                (good_append (good_ws_sep r1 (by decide) (by decide)) hi2)
          · next hc =>
            split at h'
            · next hcb =>
              subst hcb
              injection h' with h2
              injection h2 with hveq hreq
              subst hveq
              subst hreq
              refine ⟨pv ++ (wsOf r1 ++ [']']), ?_,
                good_append hv2 (good_ws_sep r1 (by decide) (by decide)),
                append_ne_nil_left hv3⟩
              conv_lhs => rw [hv1, ← wsOf_append_skipWs r1, hsw1]
              simp [List.append_assoc]
            · exact Option.noConfusion h'

theorem parseValue_head {f : Nat} {cs : Str} {x : Json × Str}
    (h : parseValue f cs = some x) :
    ∃ d r, skipWs cs = d :: r ∧ isPySpace d = false ∧ d ≠ '`' := by
  cases f with
  | zero => exact Option.noConfusion h
  | succ f =>
    have h' : (match skipWs cs with
      | [] => none
      | c :: r =>
        if c = '{' then parseObjBody f r
        else if c = '[' then parseArrBody f r
        else if c = '"' then (parseStringLit r).map (fun p => (Json.str p.1, p.2))
        else if c = 't' then expectLit ['r', 'u', 'e'] (Json.bool true) r
        else if c = 'f' then expectLit ['a', 'l', 's', 'e'] (Json.bool false) r
        else if c = 'n' then expectLit ['u', 'l', 'l'] Json.null r
        else if c = '-' || c.isDigit then
          (parseNumberLit (c :: r)).map (fun p => (Json.num p.1, p.2))
        else none) = some x := h
    split at h'
    · exact Option.noConfusion h'
    · next c r hsw =>
      refine ⟨c, r, hsw, ?_⟩
      split at h'
      · next hc => subst hc; exact ⟨by decide, by decide⟩
      · next hc1 =>
        split at h'
        · next hc => subst hc; exact ⟨by decide, by decide⟩
        · next hc2 =>
          split at h'
          · next hc => subst hc; exact ⟨by decide, by decide⟩
          · next hc3 =>
            split at h'
            · next hc => subst hc; exact ⟨by decide, by decide⟩
            · next hc4 =>
              split at h'
              · next hc => subst hc; exact ⟨by decide, by decide⟩
              · next hc5 =>
                split at h'
                · next hc => subst hc; exact ⟨by decide, by decide⟩
                · next hc6 =>
                  split at h'
                  · next hc7 =>
                    rw [Bool.or_eq_true] at hc7
                    rcases hc7 with hc7 | hc7
                    · have hcm : c = '-' := of_decide_eq_true hc7
                      subst hcm
                      exact ⟨by decide, by decide⟩
                    · exact ⟨digit_not_pySpace hc7, fun he => absurd hc7
                        (by rw [he]; exact Bool.noConfusion)⟩
                  · exact Option.noConfusion h'

theorem parseValue_tick (f : Nat) (rest : Str) :
    parseValue f ('`' :: rest) = none := by
  cases hp : parseValue f ('`' :: rest) with
  | none => rfl
  | some x =>
    obtain ⟨d, r, hsw, hd1, hd2⟩ := parseValue_head hp
    have hskip : skipWs ('`' :: rest) = '`' :: rest := by
      unfold skipWs
      rw [List.dropWhile_cons, if_neg (by decide)]
    rw [hskip] at hsw
    injection hsw with hde hre
    exact absurd hde.symm hd2

theorem skipWs_idem (l : Str) : skipWs (skipWs l) = skipWs l := by
  cases hs : skipWs l with
  | nil => rfl
  | cons c r =>
    have hc : isJsonWs c = false := skipWs_head hs
    unfold skipWs
    rw [List.dropWhile_cons, if_neg (by rw [hc]; exact Bool.noConfusion)]

theorem dropWhile_length_le (p : Char → Bool) (t : Str) :
    (t.dropWhile p).length ≤ t.length := by
  induction t with
  | nil => simp
  | cons b u ihu =>
    rw [List.dropWhile_cons]
    split
    · exact Nat.le_succ_of_le ihu
    · simp

theorem skipWs_stripEndWs {m : Str} (hm : skipWs m = m) :
    skipWs (stripEndWs m) = stripEndWs m := by
  cases m with
  | nil => rfl
  | cons y t =>
    have hy : isJsonWs y = false := by
      cases hj : isJsonWs y with
      | false => rfl
      | true =>
        have h1 : skipWs (y :: t) = skipWs t := by
          unfold skipWs
          rw [List.dropWhile_cons, if_pos hj]
        rw [hm] at h1
        have h2 := congrArg List.length h1
        have h3 : (skipWs t).length ≤ t.length := dropWhile_length_le isJsonWs t
        rw [← h1] at h3
        simp only [List.length_cons] at h3
        omega
    rw [stripEndWs_cons_of hy]
    unfold skipWs
    rw [List.dropWhile_cons, if_neg (by rw [hy]; exact Bool.noConfusion)]

theorem stripEndWs_eq_self {l : Str}
    (h : ∀ d, l.getLast? = some d → isJsonWs d = false) : stripEndWs l = l := by
  unfold stripEndWs
  cases hr : l.reverse with
  | nil =>
    rw [List.dropWhile_nil]
    rw [List.reverse_eq_nil_iff] at hr
    rw [hr]
    rfl
  | cons z zs =>
    have hz : isJsonWs z = false := h z (by rw [← List.head?_reverse, hr]; rfl)
    rw [List.dropWhile_cons, if_neg (by rw [hz]; exact Bool.noConfusion), ← hr,
      List.reverse_reverse]

theorem dropWhile_append_ws {p : Char → Bool} {w : Str} (l : Str)
    (hw : ∀ x ∈ w, p x = true) :
    List.dropWhile p (w ++ l) = List.dropWhile p l := by
  induction w with
  | nil => rfl
  | cons a t ih =>
    rw [List.cons_append, List.dropWhile_cons, if_pos (hw a (List.mem_cons_self a t))]
    exact ih (fun x hx => hw x (List.mem_cons_of_mem a hx))

theorem stripEndWs_append_ws {w : Str} (l : Str) (hw : ∀ x ∈ w, isJsonWs x = true) :
    stripEndWs (l ++ w) = stripEndWs l := by
  unfold stripEndWs
  rw [List.reverse_append, dropWhile_append_ws l.reverse
    (fun x hx => hw x (List.mem_reverse.mp hx))]

theorem pyStrip_eq_self {l : Str}
    (hh : ∀ d, l.head? = some d → isPySpace d = false)
    (hl : ∀ d, l.getLast? = some d → isPySpace d = false) : pyStrip l = l := by
  unfold pyStrip
  cases l with
  | nil => rfl
  | cons a t =>
    have ha : isPySpace a = false := hh a rfl
    rw [List.dropWhile_cons, if_neg (by rw [ha]; exact Bool.noConfusion)]
    cases hr : (a :: t).reverse with
    | nil => exact absurd hr (by simp)
    | cons z zs =>
      have hz : isPySpace z = false := hl z (by rw [← List.head?_reverse, hr]; rfl)
      rw [List.dropWhile_cons, if_neg (by rw [hz]; exact Bool.noConfusion), ← hr,
        List.reverse_reverse]

theorem pyStrip_ws_wrap {W1 W2 C : Str}
    (h1 : ∀ x ∈ W1, isJsonWs x = true) (h2 : ∀ x ∈ W2, isJsonWs x = true)
    (hh : ∀ d, C.head? = some d → isPySpace d = false)
    (hl : ∀ d, C.getLast? = some d → isPySpace d = false)
    (hne : C ≠ []) :
    pyStrip (W1 ++ (C ++ W2)) = C := by
  unfold pyStrip
  rw [dropWhile_append_ws (C ++ W2) (fun x hx => isJsonWs_isPySpace (h1 x hx))]
  cases C with
  | nil => exact absurd rfl hne
  | cons a t =>
    have ha : isPySpace a = false := hh a rfl
    rw [List.cons_append, List.dropWhile_cons,
      if_neg (by rw [ha]; exact Bool.noConfusion), List.reverse_cons, List.reverse_append,
      List.append_assoc, dropWhile_append_ws (t.reverse ++ [a])
        (fun x hx => isJsonWs_isPySpace (h2 x (List.mem_reverse.mp hx)))]
    rw [show t.reverse ++ [a] = (a :: t).reverse from by rw [List.reverse_cons]]
    cases hr : (a :: t).reverse with
    | nil => exact absurd hr (by simp)
    | cons z zs =>
      have hz : isPySpace z = false := hl z (by rw [← List.head?_reverse, hr]; rfl)
      rw [List.dropWhile_cons, if_neg (by rw [hz]; exact Bool.noConfusion), ← hr,
        List.reverse_reverse]

theorem parseJson_congr {a b : Str} (h : stripJsonWs a = stripJsonWs b) :
    parseJson a = parseJson b := by
  unfold parseJson
  rw [h]

theorem splitNlFence_cons_fallback {a : Char} {r : Str}
    (hno : a ≠ '\n' ∨ ∀ rest, r ≠ '`' :: '`' :: '`' :: rest) :
    splitNlFence (a :: r) = (splitNlFence r).map (fun p => (a :: p.1, p.2)) := by
  rw [splitNlFence.eq_def]
  split
  · next rest heq =>
    injection heq with ha hr
    rcases hno with hno | hno
    · exact absurd ha hno
    · exact absurd hr (hno rest)
  · next c2 r2 hno2 heq =>
    injection heq with h1 h2
    subst h1
    subst h2
    rfl
  · next heq => exact List.noConfusion heq

theorem splitNlFence_append : ∀ {C : Str}, noNlTick C = true →
    splitNlFence (C ++ '\n' :: '`' :: '`' :: '`' :: []) = some (C, []) := by
  intro C
  induction C with
  | nil => intro h; rfl
  | cons a C' ih =>
    intro h
    rw [noNlTick_cons_iff] at h
    obtain ⟨h1, h2⟩ := h
    have hno : a ≠ '\n' ∨
        ∀ rest, (C' ++ '\n' :: '`' :: '`' :: '`' :: []) ≠ '`' :: '`' :: '`' :: rest := by
      by_cases ha : a = '\n'
      · refine Or.inr (fun rest heq => ?_)
        cases C' with
        | nil => exact absurd (List.cons.inj heq).1 (by decide)
        | cons x xs =>
          rw [List.cons_append] at heq
          have hx : x = '`' := (List.cons.inj heq).1
          exact h2 ⟨ha, by rw [List.head?_cons, hx]⟩
      · exact Or.inl ha
    rw [List.cons_append, splitNlFence_cons_fallback hno, ih h1]
    rfl

theorem headerCandidates_cons_nl (Z : Str) :
    headerCandidates ('\n' :: Z) = Z :: headerCandidates Z := rfl

theorem headerCandidates_form {P : Str} (tail : Str)
    (hh : ∀ d, P.head? = some d → isPySpace d = false) (hPne : P ≠ []) :
    ∀ W, (∀ x ∈ W, isJsonWs x = true) →
    ∀ s ∈ headerCandidates (W ++ (P ++ tail)),
      ∃ U, (∀ x ∈ U, isJsonWs x = true) ∧ s = U ++ (P ++ tail) := by
  intro W
  induction W with
  | nil =>
    intro _ s hs
    cases P with
    | nil => exact absurd rfl hPne
    | cons p0 pt =>
      have hp0 : isPySpace p0 = false := hh p0 rfl
      have hred : headerCandidates (p0 :: (pt ++ tail)) = [] := by
        show (if isPySpace p0 then
          (if p0 = '\n' then [pt ++ tail] else []) ++ headerCandidates (pt ++ tail)
          else []) = []
        rw [if_neg (by rw [hp0]; exact Bool.noConfusion)]
      rw [List.nil_append, List.cons_append, hred] at hs
      exact absurd hs (List.not_mem_nil s)
  | cons w W' ih =>
    intro hW s hs
    rw [List.cons_append] at hs
    have hpw : isPySpace w = true := isJsonWs_isPySpace (hW w (List.mem_cons_self w W'))
    have hred : headerCandidates (w :: (W' ++ (P ++ tail))) =
        (if w = '\n' then [W' ++ (P ++ tail)] else []) ++
          headerCandidates (W' ++ (P ++ tail)) := by
      show (if isPySpace w then
        (if w = '\n' then [W' ++ (P ++ tail)] else []) ++
          headerCandidates (W' ++ (P ++ tail)) else []) = _
      rw [if_pos hpw]
    rw [hred] at hs
    rcases List.mem_append.mp hs with hs | hs
    · by_cases hwn : w = '\n'
      · rw [if_pos hwn] at hs
        obtain rfl := List.mem_singleton.mp hs
        exact ⟨W', fun x hx => hW x (List.mem_cons_of_mem w hx), rfl⟩
      · rw [if_neg hwn] at hs
        exact absurd hs (List.not_mem_nil s)
    · exact ih (fun x hx => hW x (List.mem_cons_of_mem w hx)) s hs

theorem fenceAfterHeader_eval {W P : Str}
    (hW : ∀ x ∈ W, isJsonWs x = true)
    (hP : noNlTick P = true)
    (htick : P.head? ≠ some '`')
    (hh : ∀ d, P.head? = some d → isPySpace d = false)
    (hPne : P ≠ []) :
    ∃ U, (∀ x ∈ U, isJsonWs x = true) ∧
      fenceAfterHeader ('\n' :: (W ++ (P ++ '\n' :: '`' :: '`' :: '`' :: []))) =
        some (U ++ P) := by
  have hform : ∀ s ∈ (W ++ (P ++ '\n' :: '`' :: '`' :: '`' :: [])) ::
      headerCandidates (W ++ (P ++ '\n' :: '`' :: '`' :: '`' :: [])),
      ∃ U, (∀ x ∈ U, isJsonWs x = true) ∧
        s = U ++ (P ++ '\n' :: '`' :: '`' :: '`' :: []) := by
    intro s hs
    rcases List.mem_cons.mp hs with rfl | hs
    · exact ⟨W, hW, rfl⟩
    · exact headerCandidates_form _ hh hPne W hW s hs
  cases hrev : ((W ++ (P ++ '\n' :: '`' :: '`' :: '`' :: [])) ::
      headerCandidates (W ++ (P ++ '\n' :: '`' :: '`' :: '`' :: []))).reverse with
  | nil => exact absurd hrev (by simp)
  | cons a as =>
    have ha := List.mem_reverse.mp (show a ∈ _ from by
      rw [hrev]; exact List.mem_cons_self a as)
    obtain ⟨U, hU, haeq⟩ := hform a ha
    refine ⟨U, hU, ?_⟩
    unfold fenceAfterHeader
    rw [headerCandidates_cons_nl, hrev, List.findSome?_cons]
    have hsa : splitNlFence a = some (U ++ P, []) := by
      rw [haeq, ← List.append_assoc]
      exact splitNlFence_append (noNlTick_append (noNlTick_ws hU) hP
        (fun z hz hzn => htick))
    simp [hsa]

theorem fenceMatchAt_wrap (b : Bool) (payload : Str) :
    fenceMatchAt (wrapFenced b payload) =
      fenceAfterHeader ('\n' :: (payload ++ '\n' :: fence3)) := by
  cases b <;> rfl

theorem fenceFindFirst_pos {c : Char} {r g : Str}
    (h : fenceMatchAt (c :: r) = some g) : fenceFindFirst (c :: r) = some g := by
  show (match fenceMatchAt (c :: r) with
    | some g => some g
    | none => fenceFindFirst r) = some g
  rw [h]

theorem parseJson_tick (R : Str) : parseJson ('`' :: R) = none := by
  have h1 : stripJsonWs ('`' :: R) = '`' :: stripEndWs R := by
    unfold stripJsonWs
    rw [show skipWs ('`' :: R) = '`' :: R from by
      unfold skipWs; rw [List.dropWhile_cons, if_neg (by decide)]]
    exact stripEndWs_cons_of (by decide)
  unfold parseJson
  rw [h1]
  simp only [parseValue_tick]

theorem extract_wrapped {payload ctx : Str} {v : Json} (b : Bool)
    (hv : parseJson payload = some v) :
    extract_json_from_response (wrapFenced b payload) ctx = Except.ok v := by
  obtain ⟨c0, W2, hW2, hmc, hcdef⟩ : ∃ c0 W2, (∀ x ∈ W2, isJsonWs x = true) ∧
      skipWs payload = c0 ++ W2 ∧ stripEndWs (skipWs payload) = c0 :=
    ⟨stripEndWs (skipWs payload), endWsOf (skipWs payload),
      fun x hx => mem_endWsOf hx, (stripEndWs_append_endWsOf _).symm, rfl⟩
  have hcs : stripJsonWs payload = c0 := hcdef
  have hv' : (match parseValue (3 * (stripJsonWs payload).length + 3)
      (stripJsonWs payload) with
    | some (v', rest) => if rest = [] then some v' else none
    | none => none) = some v := hv
  rw [hcs] at hv'
  cases hpv0 : parseValue (3 * c0.length + 3) c0 with
  | none => rw [hpv0] at hv'; exact Option.noConfusion hv'
  | some pr =>
    obtain ⟨v', rest⟩ := pr
    rw [hpv0] at hv'
    have hv'' : (if rest = [] then some v' else none) = some v := hv'
    split at hv''
    · next hrest =>
      injection hv'' with hveq
      subst hveq
      subst hrest
      have hgood : GoodPiece c0 := by
        obtain ⟨p, hp1, hp2, hp3⟩ := (parsers_safe _).1 c0 v' [] hpv0
        rw [List.append_nil] at hp1
        rw [hp1]
        exact hp2
      obtain ⟨d, r0, hd1, hd2, hd3⟩ := parseValue_head hpv0
      have hsk : skipWs c0 = c0 := by
        rw [← hcdef]
        exact skipWs_stripEndWs (skipWs_idem payload)
      rw [hsk] at hd1
      have hPhead : (c0 ++ W2).head? = some d := by rw [hd1]; rfl
      have hPtick : (c0 ++ W2).head? ≠ some '`' := by
        rw [hPhead]
        intro he
        injection he with he2
        exact hd3 he2
      have hPh : ∀ e, (c0 ++ W2).head? = some e → isPySpace e = false := by
        intro e he
        rw [hPhead] at he
        injection he with he2
        subst he2
        exact hd2
      have hPnn : noNlTick (c0 ++ W2) = true :=
        noNlTick_append hgood.1 (noNlTick_ws hW2) (fun z hz hzn => by
          rw [hzn] at hz
          exact absurd (hgood.2.2 '\n' hz) (by decide))
      have hPne : (c0 ++ W2) ≠ [] := by
        rw [hd1]
        exact List.cons_ne_nil _ _
      obtain ⟨U, hU, hfa⟩ := fenceAfterHeader_eval (W := wsOf payload)
        (P := c0 ++ W2) (fun x hx => mem_wsOf hx) hPnn hPtick hPh hPne
      have harr : payload ++ '\n' :: fence3 =
          wsOf payload ++ ((c0 ++ W2) ++ '\n' :: '`' :: '`' :: '`' :: []) := by
        conv_lhs => rw [← wsOf_append_skipWs payload, hmc]
        simp [List.append_assoc, fence3]
      have hmw : fenceMatchAt (wrapFenced b payload) = some (U ++ (c0 ++ W2)) := by
        rw [fenceMatchAt_wrap, show ('\n' :: (payload ++ '\n' :: fence3) : Str) =
          '\n' :: (wsOf payload ++ ((c0 ++ W2) ++ '\n' :: '`' :: '`' :: '`' :: []))
          from by rw [harr]]
        exact hfa
      obtain ⟨X, hX⟩ : ∃ X, wrapFenced b payload = '`' :: '`' :: '`' :: X := by
        cases b
        · exact ⟨_, rfl⟩
        · exact ⟨_, rfl⟩
      have hff : fenceFindFirst (wrapFenced b payload) = some (U ++ (c0 ++ W2)) := by
        rw [hX] at hmw ⊢
        exact fenceFindFirst_pos hmw
      have hstrip : stripJsonWs (U ++ (c0 ++ W2)) = c0 := by
        unfold stripJsonWs
        rw [skipWs_append_ws _ hU, show skipWs (c0 ++ W2) = c0 ++ W2 from by
          rw [hd1]
          unfold skipWs
          rw [List.cons_append, List.dropWhile_cons,
            if_neg (by rw [not_pySpace_not_jsonWs hd2]; exact Bool.noConfusion)]]
        rw [stripEndWs_append_ws _ hW2]
        exact stripEndWs_eq_self (fun e he =>
          not_pySpace_not_jsonWs (hgood.2.2 e he))
      have hgv : parseJson (U ++ (c0 ++ W2)) = some v' := by
        rw [parseJson_congr (show stripJsonWs (U ++ (c0 ++ W2)) =
          stripJsonWs payload from by rw [hstrip, hcs])]
        exact hv
      have hlastT : (wrapFenced b payload).getLast? = some '`' := by
        rw [show wrapFenced b payload =
          (fence3 ++ (if b then ['j', 's', 'o', 'n'] else []) ++ ('\n' :: payload)) ++
            ('\n' :: fence3) from by
            cases b <;> simp [wrapFenced, fence3, List.append_assoc],
          List.getLast?_append]
        rfl
      have hpsT : pyStrip (wrapFenced b payload) = wrapFenced b payload := by
        apply pyStrip_eq_self
        · intro e he
          rw [hX] at he
          injection he with he2
          rw [← he2]
          decide
        · intro e he
          rw [hlastT] at he
          injection he with he2
          rw [← he2]
          decide
      have hneT : ¬ pyStrip (wrapFenced b payload) = [] := by
        rw [hpsT, hX]
        exact List.cons_ne_nil _ _
      have hpjT : parseJson (wrapFenced b payload) = none := by
        rw [hX]
        exact parseJson_tick _
      have hhfT : hasFence (wrapFenced b payload) = true := by
        rw [hX]
        show (fence3.isPrefixOf ('`' :: '`' :: '`' :: X) || hasFence ('`' :: '`' :: X)) = true
        have hpre : fence3.isPrefixOf ('`' :: '`' :: '`' :: X) = true :=
          List.isPrefixOf_iff_prefix.mpr ⟨X, rfl⟩
        rw [hpre, Bool.true_or]
      unfold extract_json_from_response
      rw [if_neg hneT]
      simp [hpsT, hpjT, hhfT, hff, hgv]
    · exact Option.noConfusion hv''

theorem extract_unwrapped {payload ctx : Str} {v : Json}
    (hv : parseJson payload = some v) :
    extract_json_from_response payload ctx = Except.ok v := by
  obtain ⟨c0, W2, hW2, hmc, hcdef⟩ : ∃ c0 W2, (∀ x ∈ W2, isJsonWs x = true) ∧
      skipWs payload = c0 ++ W2 ∧ stripEndWs (skipWs payload) = c0 :=
    ⟨stripEndWs (skipWs payload), endWsOf (skipWs payload),
      fun x hx => mem_endWsOf hx, (stripEndWs_append_endWsOf _).symm, rfl⟩
  have hcs : stripJsonWs payload = c0 := hcdef
  have hv' : (match parseValue (3 * (stripJsonWs payload).length + 3)
      (stripJsonWs payload) with
    | some (v', rest) => if rest = [] then some v' else none
    | none => none) = some v := hv
  rw [hcs] at hv'
  cases hpv0 : parseValue (3 * c0.length + 3) c0 with
  | none => rw [hpv0] at hv'; exact Option.noConfusion hv'
  | some pr =>
    obtain ⟨v', rest⟩ := pr
    rw [hpv0] at hv'
    have hv'' : (if rest = [] then some v' else none) = some v := hv'
    split at hv''
    · next hrest =>
      injection hv'' with hveq
      subst hveq
      subst hrest
      have hgood : GoodPiece c0 := by
        obtain ⟨p, hp1, hp2, hp3⟩ := (parsers_safe _).1 c0 v' [] hpv0
        rw [List.append_nil] at hp1
        rw [hp1]
        exact hp2
      obtain ⟨d, r0, hd1, hd2, hd3⟩ := parseValue_head hpv0
      have hsk : skipWs c0 = c0 := by
        rw [← hcdef]
        exact skipWs_stripEndWs (skipWs_idem payload)
      rw [hsk] at hd1
      have hCh : ∀ e, c0.head? = some e → isPySpace e = false := by
        intro e he
        rw [hd1] at he
        injection he with he2
        subst he2
        exact hd2
      have hps : pyStrip payload = c0 := by
        conv_lhs => rw [← wsOf_append_skipWs payload, hmc]
        exact pyStrip_ws_wrap (fun x hx => mem_wsOf hx) hW2 hCh
          (fun e he => hgood.2.2 e he)
          (by rw [hd1]; exact List.cons_ne_nil _ _)
      have hstrip0 : stripJsonWs c0 = stripJsonWs payload := by
        rw [hcs]
        unfold stripJsonWs
        rw [hsk]
        exact stripEndWs_eq_self (fun e he => not_pySpace_not_jsonWs (hgood.2.2 e he))
      have hpp : parseJson (pyStrip payload) = some v' := by
        rw [hps, parseJson_congr hstrip0]
        exact hv
      have hne : ¬ pyStrip payload = [] := by
        rw [hps, hd1]
        exact List.cons_ne_nil _ _
      unfold extract_json_from_response
      rw [if_neg hne]
      simp only [hpp]
    · exact Option.noConfusion hv''

/-- C4: for every payload that parses as JSON, extraction of the payload
wrapped in a markdown fenced code block (with or without the `json` language
tag on the opening fence) succeeds and yields the same value as extraction of
the unwrapped payload. -/
theorem extract_fence_wrap_invariant (b : Bool) (payload ctx : Str) (v : Json)
    (hv : parseJson payload = some v) :
    extract_json_from_response (wrapFenced b payload) ctx = Except.ok v ∧
    extract_json_from_response payload ctx = Except.ok v :=
  ⟨extract_wrapped b hv, extract_unwrapped hv⟩

/-- Witness for C4 at a concrete object payload wrapped in a tagged fence. -/
theorem extract_fence_wrap_invariant_witness :
    extract_json_from_response (wrapFenced true " \x7b\"a\": 1\x7d ".toList)
      "ctx".toList = Except.ok (Json.obj [(['a'], Json.num ['1'])]) ∧
    extract_json_from_response " \x7b\"a\": 1\x7d ".toList "ctx".toList =
      Except.ok (Json.obj [(['a'], Json.num ['1'])]) :=
  extract_fence_wrap_invariant true _ _ _ rfl
